import Mathlib

/-!
Shallow embedding of the core detection → track → count pipeline of the
Traffic_Control repository, together with proofs of the specified properties.

Source files embedded:
* `src/core/detectors/traffic_detector.py` — `ONNXVehicleTracker`
  (`update`, `_register`, `_deregister`, `_get_center`, `_smooth_bbox`,
  `_update_trajectory`, `is_moving_towards_camera`, `check_zone_counting`,
  `check_line_crossing`), the per-frame counting loop of
  `ONNXTrafficDetector.process_frame`, and the stability gate
  `ONNXTrafficDetector._is_enhanced_stable_detection` /
  `_calculate_position_variance`.
* `src/core/detectors/onnx_detector.py` — `ONNXYOLODetector.postprocess`,
  `non_max_suppression`, `bbox_iou`.

Modelling conventions:
* Python floats are modelled as rationals (`ℚ`); all the arithmetic the
  claims touch is exact.
* Python `dict`s (which preserve insertion order) are modelled as
  insertion-ordered association lists `List (Nat × α)`, with `dictSet`
  mirroring `d[k] = v` (in-place update when the key is present, append
  otherwise) and `dictDel` mirroring `del d[k]`.
* Python `set`s are modelled as `List Nat` with membership.
* `collections.deque(maxlen = n)` is modelled as a list with newest
  elements at the end; appending beyond `n` drops from the front.
* `np.linalg.norm(a - b) < t` (with `t ≥ 0`) is modelled by the equivalent
  squared comparison `dist2 a b < t^2`, since `Real.sqrt` is monotone; this
  keeps every definition inside `ℚ`.  Likewise `np.std(xs) > 0.25` is
  modelled as `listVar xs > 1/16`.
-/

namespace TrafficControl

abbrev Point : Type := ℚ × ℚ

/-- A per-frame detection candidate, as produced by the decoder and consumed
by the tracker: `{'bbox': [x1,y1,x2,y2], 'confidence': c, 'class_name': s}`. -/
structure Detection where
  bbox : List ℚ
  confidence : ℚ
  className : String
deriving Repr, DecidableEq

/-- A tracked object, the value stored in `ONNXVehicleTracker.objects`:
`{'bbox': [...], 'class': ..., 'confidence': ..., 'history': [...]}`. -/
structure Track where
  bbox : List ℚ
  cls : String
  confidence : ℚ
  history : List (List ℚ)
deriving Repr, DecidableEq

instance : Inhabited Track := ⟨⟨[], "", 0, []⟩⟩

/-- `d[k] = v` on an insertion-ordered Python dict: overwrite in place when
the key is present, append at the end otherwise. -/
def dictSet {α : Type} : List (Nat × α) → Nat → α → List (Nat × α)
  | [], k, v => [(k, v)]
  | (k0, v0) :: rest, k, v =>
      if k0 = k then (k, v) :: rest else (k0, v0) :: dictSet rest k v

/-- `del d[k]` on a Python dict (keys are unique in a real dict; we remove
every pair with that key). -/
def dictDel {α : Type} (l : List (Nat × α)) (k : Nat) : List (Nat × α) :=
  l.filter (fun p => p.1 ≠ k)

/-- `d.get(k)` on a Python dict: the value stored under the first (only)
occurrence of the key. -/
def dictGet {α : Type} : List (Nat × α) → Nat → Option α
  | [], _ => none
  | (k0, v0) :: rest, k => if k0 = k then some v0 else dictGet rest k

/-- `deque(maxlen = maxLen)` append: add at the right end, dropping from the
left end when the bound is exceeded. -/
def dequeAppend {α : Type} (maxLen : Nat) (l : List α) (x : α) : List α :=
  let l2 := l ++ [x]
  if maxLen < l2.length then l2.drop (l2.length - maxLen) else l2

/-- State of `ONNXVehicleTracker` (the fields the core pipeline reads;
the visualization-only `track_colors` palette is omitted). -/
structure TrackerState where
  nextId : Nat
  objects : List (Nat × Track)
  disappeared : List (Nat × Nat)
  maxDisappeared : Nat
  maxDistance : ℚ
  smoothingFactor : ℚ
  trajectoryPoints : List (Nat × List Point)
  maxTrajectoryLength : Nat
  countedIds : List Nat
  crossedIds : List Nat
  zoneEntryPositions : List (Nat × ℚ)
  minMovementToCount : ℚ
deriving Repr, DecidableEq

/-- `ONNXVehicleTracker.__init__(max_disappeared, max_distance)`. -/
def initState (maxDisappeared : Nat) (maxDistance : ℚ) : TrackerState :=
  { nextId := 0
    objects := []
    disappeared := []
    maxDisappeared := maxDisappeared
    maxDistance := maxDistance
    smoothingFactor := 65/100
    trajectoryPoints := []
    maxTrajectoryLength := 20
    countedIds := []
    crossedIds := []
    zoneEntryPositions := []
    minMovementToCount := 50 }

/-- `_get_center`: center point of a `[x1, y1, x2, y2]` box. -/
def get_center (bbox : List ℚ) : Point :=
  ((bbox.getD 0 0 + bbox.getD 2 0) / 2, (bbox.getD 1 0 + bbox.getD 3 0) / 2)

/-- Python `int()` on an exact rational: truncation toward zero. -/
def pyInt (q : ℚ) : ℤ :=
  if 0 ≤ q then ⌊q⌋ else ⌈q⌉

/-- `_smooth_bbox`: coordinate-wise
`int(old * (1 - smoothing_factor) + new * smoothing_factor)`. -/
def smooth_bbox (smoothingFactor : ℚ) (oldBbox newBbox : List ℚ) : List ℚ :=
  (oldBbox.zip newBbox).map
    (fun p => ((pyInt (p.1 * (1 - smoothingFactor) + p.2 * smoothingFactor) : ℤ) : ℚ))

/-- `_update_trajectory`: append the box center to the object's bounded
trajectory deque (creating it when absent). -/
def update_trajectory (s : TrackerState) (objectId : Nat) (bbox : List ℚ) :
    TrackerState :=
  let pts := (dictGet s.trajectoryPoints objectId).getD []
  let newPts := dequeAppend s.maxTrajectoryLength pts (get_center bbox)
  { s with trajectoryPoints := dictSet s.trajectoryPoints objectId newPts }

/-- `_register`: create a new track under id `next_id`, returning the new
state and the assigned id. -/
def register (s : TrackerState) (det : Detection) : TrackerState × Nat :=
  let objectId := s.nextId
  let s2 : TrackerState :=
    { s with
      nextId := s.nextId + 1
      objects := dictSet s.objects objectId
        { bbox := det.bbox
          cls := det.className
          confidence := det.confidence
          history := [det.bbox] }
      disappeared := dictSet s.disappeared objectId 0
      trajectoryPoints := dictSet s.trajectoryPoints objectId [] }
  (update_trajectory s2 objectId det.bbox, objectId)

/-- `_deregister`: drop the object from every per-id table. -/
def deregister (s : TrackerState) (objectId : Nat) : TrackerState :=
  { s with
    objects := dictDel s.objects objectId
    disappeared := dictDel s.disappeared objectId
    trajectoryPoints := dictDel s.trajectoryPoints objectId }

/-- Squared Euclidean distance between two centers (see the header note on
the monotone-sqrt reformulation of `np.linalg.norm`). -/
def dist2 (a b : Point) : ℚ :=
  (a.1 - b.1) ^ 2 + (a.2 - b.2) ^ 2

/-- The inner loop of `update`'s greedy matching: scan every detection index
`j`, skipping already-matched ones, and keep the strictly closest candidate
with (true) distance below `max_distance`; ties keep the earliest index,
as the strict `dist < min_dist` test does. -/
def findBestMatch (objCenter : Point) (detectionCenters : List Point)
    (matchedDetections : List Nat) (maxDistance : ℚ) : Option Nat :=
  ((List.range detectionCenters.length).foldl
    (fun (acc : Option (Nat × ℚ)) j =>
      if j ∈ matchedDetections then acc
      else
        let d := dist2 objCenter (detectionCenters.getD j (0, 0))
        match acc with
        | none => if d < maxDistance ^ 2 then some (j, d) else none
        | some (jb, db) =>
            if d < db ∧ d < maxDistance ^ 2 then some (j, d) else some (jb, db))
    none).map Prod.fst

/-- Body of `update`'s matching loop for one track (`for i, obj_id in
enumerate(object_ids)`), threading the matched-detection and matched-object
sets through the accumulator. -/
def matchStep (detections : List Detection) (detectionCenters : List Point)
    (acc : TrackerState × List Nat × List Nat) (objIdCenter : Nat × Point) :
    TrackerState × List Nat × List Nat :=
  let st := acc.1
  let matchedDetections := acc.2.1
  let matchedObjects := acc.2.2
  let objId := objIdCenter.1
  if objId ∈ matchedObjects then acc
  else
    match findBestMatch objIdCenter.2 detectionCenters matchedDetections
        st.maxDistance with
    | none => acc
    | some j =>
        let det := detections.getD j ⟨[], 0, "vehicle"⟩
        let oldTrack := (dictGet st.objects objId).getD default
        let smoothedBbox := smooth_bbox st.smoothingFactor oldTrack.bbox det.bbox
        let st2 : TrackerState :=
          { st with
            objects := dictSet st.objects objId
              { oldTrack with
                bbox := smoothedBbox
                cls := det.className
                confidence := det.confidence }
            disappeared := dictSet st.disappeared objId 0 }
        let st3 := update_trajectory st2 objId smoothedBbox
        (st3, j :: matchedDetections, objId :: matchedObjects)

/-- The whole greedy nearest-neighbor matching phase of `update`, iterating
the tracks in the order of `list(self.objects.keys())`.  Returns the state
after all matched tracks are updated, plus the matched detection indices and
matched object ids. -/
def matchResults (s : TrackerState) (detections : List Detection) :
    TrackerState × List Nat × List Nat :=
  let objectIds := s.objects.map Prod.fst
  let objectCenters := objectIds.map
    (fun objId => get_center (((dictGet s.objects objId).getD default).bbox))
  let detectionCenters := detections.map (fun det => get_center det.bbox)
  (objectIds.zip objectCenters).foldl
    (matchStep detections detectionCenters) (s, [], [])

/-- One iteration of the disappearance bookkeeping
(`self.disappeared[oid] += 1; deregister when it exceeds max_disappeared`). -/
def disappearedStep (st : TrackerState) (objectId : Nat) : TrackerState :=
  let d := (dictGet st.disappeared objectId).getD 0 + 1
  let st2 : TrackerState := { st with disappeared := dictSet st.disappeared objectId d }
  if st2.maxDisappeared < d then deregister st2 objectId else st2

/-- The `len(detections) == 0` branch of `update`: age every track and
deregister the ones whose counter now exceeds `max_disappeared`. -/
def updateNoDetections (s : TrackerState) : TrackerState :=
  (s.disappeared.map Prod.fst).foldl disappearedStep s

/-- `_register` wrapped to collect the assigned id into an accumulator. -/
def registerStep (p : TrackerState × List Nat) (det : Detection) :
    TrackerState × List Nat :=
  let r := register p.1 det
  (r.1, p.2 ++ [r.2])

/-- One step of `update`'s unmatched-detection loop: detections whose index
was matched are skipped, the rest are registered. -/
def registerUnmatchedStep (detections : List Detection)
    (matchedDetections : List Nat) (p : TrackerState × List Nat) (i : Nat) :
    TrackerState × List Nat :=
  if i ∈ matchedDetections then p
  else registerStep p (detections.getD i ⟨[], 0, "vehicle"⟩)

/-- One step of `update`'s final loop over `list(self.objects.keys())`:
matched tracks are skipped, the rest are aged (and possibly deregistered). -/
def agingStep (matchedObjects : List Nat) (st2 : TrackerState) (objId : Nat) :
    TrackerState :=
  if objId ∈ matchedObjects then st2 else disappearedStep st2 objId

/-- `ONNXVehicleTracker.update`, instrumented to also return the list of ids
assigned by `_register` during this call (in assignment order). -/
def updateAssigning (s : TrackerState) (detections : List Detection) :
    TrackerState × List Nat :=
  if detections.length = 0 then
    (updateNoDetections s, [])
  else if s.objects.length = 0 then
    -- first frame with detections: register everything
    detections.foldl registerStep (s, [])
  else
    let mr := matchResults s detections
    let matchedDetections := mr.2.1
    let matchedObjects := mr.2.2
    -- handle unmatched detections (new objects)
    let reg := (List.range detections.length).foldl
      (registerUnmatchedStep detections matchedDetections) (mr.1, [])
    -- handle disappeared objects
    let st := (reg.1.objects.map Prod.fst).foldl (agingStep matchedObjects) reg.1
    (st, reg.2)

/-- `ONNXVehicleTracker.update` (state part). -/
def update (s : TrackerState) (detections : List Detection) : TrackerState :=
  (updateAssigning s detections).1

/-- `check_zone_counting`: at-most-once zone-traversal counting.  Returns
the Python boolean and the updated tracker state. -/
def check_zone_counting (s : TrackerState) (objectId : Nat) :
    Bool × TrackerState :=
  if objectId ∈ s.countedIds then (false, s)
  else
    match dictGet s.trajectoryPoints objectId with
    | none => (false, s)
    | some pts =>
        if pts.length < 5 then (false, s)
        else
          let entries := dictSet s.zoneEntryPositions objectId ((pts.headD (0, 0)).2)
          let s1 :=
            if (dictGet s.zoneEntryPositions objectId).isNone then
              { s with zoneEntryPositions := entries }
            else s
          let entryY := (dictGet s1.zoneEntryPositions objectId).getD 0
          let currentY := (pts.getLastD (0, 0)).2
          let movement := currentY - entryY
          if s1.minMovementToCount ≤ movement then
            (true, { s1 with countedIds := objectId :: s1.countedIds })
          else (false, s1)

/-- `check_line_crossing`: at-most-once line-crossing counting (legacy
strategy), direction-agnostic by design. -/
def check_line_crossing (s : TrackerState) (objectId : Nat) (lineY : ℚ) :
    Bool × TrackerState :=
  if objectId ∈ s.crossedIds then (false, s)
  else
    match dictGet s.trajectoryPoints objectId with
    | none => (false, s)
    | some pts =>
        if pts.length < 2 then (false, s)
        else
          let yPrev := (pts.getD (pts.length - 2) (0, 0)).2
          let yCurr := (pts.getLastD (0, 0)).2
          if (lineY < yPrev ∧ yCurr ≤ lineY) ∨ (yPrev ≤ lineY ∧ lineY < yCurr) then
            (true, { s with crossedIds := objectId :: s.crossedIds })
          else (false, s)

/-- `is_moving_towards_camera`: average y-movement over the last
`min_frames` trajectory points exceeds `0.5`. -/
def is_moving_towards_camera (s : TrackerState) (objectId : Nat)
    (minFrames : Nat := 5) : Bool :=
  match dictGet s.trajectoryPoints objectId with
  | none => false
  | some pts =>
      if pts.length < minFrames then false
      else
        let recentPoints := pts.drop (pts.length - minFrames)
        let yMovements := (recentPoints.zip recentPoints.tail).map
          (fun p => p.2.2 - p.1.2)
        if yMovements = [] then false
        else decide ((1 : ℚ)/2 < yMovements.sum / yMovements.length)

/-! ### Decoder / suppressor (`src/core/detectors/onnx_detector.py`) -/

/-- A corner-form box `[x1, y1, x2, y2]`. -/
structure Box where
  x1 : ℚ
  y1 : ℚ
  x2 : ℚ
  y2 : ℚ
deriving Repr, DecidableEq

instance : Inhabited Box := ⟨⟨0, 0, 0, 0⟩⟩

/-- `bbox_iou` for a single pair of boxes: intersection over union with the
`1e-6` epsilon the source adds to the denominator. -/
def bbox_iou (b1 b2 : Box) : ℚ :=
  let xx1 := max b1.x1 b2.x1
  let yy1 := max b1.y1 b2.y1
  let xx2 := min b1.x2 b2.x2
  let yy2 := min b1.y2 b2.y2
  let intersection := max 0 (xx2 - xx1) * max 0 (yy2 - yy1)
  let area1 := (b1.x2 - b1.x1) * (b1.y2 - b1.y1)
  let area2 := (b2.x2 - b2.x1) * (b2.y2 - b2.y1)
  intersection / (area1 + area2 - intersection + 1/1000000)

/-- Insert index `i` into a descending-by-score index list.  `np.argsort`
(an unstable quicksort followed by `[::-1]`) leaves the relative order of
equal scores unspecified; any descending order is a faithful model, and the
claims proved below involve either distinct scores or order-independent
membership. -/
def insertByScoreDesc (scores : List ℚ) (i : Nat) : List Nat → List Nat
  | [] => [i]
  | j :: rest =>
      if scores.getD j 0 < scores.getD i 0 then i :: j :: rest
      else j :: insertByScoreDesc scores i rest

/-- `np.argsort(scores)[::-1]`: the indices `0, …, n-1` sorted by
descending score. -/
def argsortDesc (scores : List ℚ) : List Nat :=
  (List.range scores.length).foldr (insertByScoreDesc scores) []

/-- The suppression loop of `non_max_suppression`, acting on the
score-descending list of (original index, box) pairs: keep the head, drop
every later box whose IoU with it exceeds the threshold, recurse. -/
def nmsLoop (iouThreshold : ℚ) : List (Nat × Box) → List Nat
  | [] => []
  | (i, b) :: rest =>
      i :: nmsLoop iouThreshold (rest.filter (fun p => bbox_iou b p.2 ≤ iouThreshold))
termination_by l => l.length
decreasing_by
  simp only [List.length_cons]
  exact Nat.lt_succ_of_le (List.length_filter_le _ _)

/-- `non_max_suppression(boxes, scores, iou_threshold)`: indices of the kept
boxes, highest score first. -/
def non_max_suppression (boxes : List Box) (scores : List ℚ)
    (iouThreshold : ℚ) : List Nat :=
  nmsLoop iouThreshold
    ((argsortDesc scores).map (fun i => (i, boxes.getD i default)))

/-- `np.max` of a score row (nonempty in the well-formed case). -/
def rowMax (l : List ℚ) : ℚ := l.foldl max (l.headD 0)

/-- `np.argmax`: index of the first occurrence of the maximum. -/
def rowArgmax (l : List ℚ) : Nat := l.findIdx (fun x => rowMax l ≤ x)

/-- The decode part of `ONNXYOLODetector.postprocess` on the transposed
`(anchors, 4 + classes)` prediction matrix.  A numpy array is rectangular,
so a malformed shape whose class-score axis is empty (row width `≤ 4`, e.g.
a `(n, 4)` or lower-rank tensor) makes `np.max(class_scores, axis=1)` raise;
this is modelled as `Except.error`.  The `ok` branch mirrors the source:
threshold on the best class score, center-to-corner conversion, NMS, inverse
letterbox transform, clipping, and dropping boxes degenerate after
clipping. -/
def postprocess_decode (rows : List (List ℚ)) (confThres iouThres : ℚ)
    (ratio : ℚ) (pad : ℚ × ℚ) (imgShape : ℚ × ℚ) :
    Except String (List Detection) :=
  if rows.any (fun r => r.length < 5) then
    Except.error "zero-size array reduction in np.max over class scores"
  else
    let imgHeight := imgShape.1
    let imgWidth := imgShape.2
    let dx := pad.1
    let dy := pad.2
    -- per-anchor best class score and id
    let maxScores := rows.map (fun r => rowMax (r.drop 4))
    let classIds := rows.map (fun r => rowArgmax (r.drop 4))
    -- confidence threshold mask
    let keptRows := (rows.zip (maxScores.zip classIds)).filter
      (fun p => confThres ≤ p.2.1)
    let validScores := keptRows.map (fun p => p.2.1)
    let validClassIds := keptRows.map (fun p => p.2.2)
    -- center form to corner form, still in model-input space
    let cornerBoxes := keptRows.map (fun p =>
      let xc := p.1.getD 0 0
      let yc := p.1.getD 1 0
      let w := p.1.getD 2 0
      let h := p.1.getD 3 0
      Box.mk (xc - w / 2) (yc - h / 2) (xc + w / 2) (yc + h / 2))
    -- NMS in model-input space
    let keepIndices := non_max_suppression cornerBoxes validScores iouThres
    let nmsBoxes := keepIndices.map (fun i => cornerBoxes.getD i default)
    let nmsScores := keepIndices.map (fun i => validScores.getD i 0)
    let nmsClassIds := keepIndices.map (fun i => validClassIds.getD i 0)
    -- inverse letterbox: remove padding, rescale, clip
    let clip := fun (v lo hi : ℚ) => min (max v lo) hi
    let mappedBoxes := nmsBoxes.map (fun b =>
      Box.mk (clip ((b.x1 - dx) / ratio) 0 imgWidth)
        (clip ((b.y1 - dy) / ratio) 0 imgHeight)
        (clip ((b.x2 - dx) / ratio) 0 imgWidth)
        (clip ((b.y2 - dy) / ratio) 0 imgHeight))
    -- drop boxes with non-positive area after clipping
    let dets := ((mappedBoxes.zip (nmsScores.zip nmsClassIds)).filter
      (fun p => p.1.x1 < p.1.x2 ∧ p.1.y1 < p.1.y2)).map
      (fun p =>
        { bbox := [p.1.x1, p.1.y1, p.1.x2, p.1.y2]
          confidence := p.2.1
          className := toString p.2.2 : Detection })
    Except.ok dets

/-- `ONNXYOLODetector.postprocess`: the whole body runs inside
`try: … except Exception: … return []`, so any internal decode failure is
caught locally and an empty detection list is returned to the caller. -/
def postprocess (rows : List (List ℚ)) (confThres iouThres : ℚ)
    (ratio : ℚ) (pad : ℚ × ℚ) (imgShape : ℚ × ℚ) : List Detection :=
  match postprocess_decode rows confThres iouThres ratio pad imgShape with
  | Except.error _ => []
  | Except.ok dets => dets

/-! ### Stability gate (`ONNXTrafficDetector`) -/

/-- The stability-gate state of `ONNXTrafficDetector` (fields set in
`__init__`; histories are `deque`s with newest samples at the end). -/
structure StabilityState where
  ambulanceDetectionHistory : List Bool
  ambulanceConfidenceHistory : List ℚ
  ambulancePositionHistory : List Point
  minTrackletFrames : Nat
  stabilityRatio : ℚ
  minConfidenceForStability : ℚ
deriving Repr, DecidableEq

/-- The stability-gate constants of `ONNXTrafficDetector.__init__`:
`min_tracklet_frames = 3`, `stability_ratio = 0.6`,
`min_confidence_for_stability = 0.04`. -/
def initStability : StabilityState :=
  { ambulanceDetectionHistory := []
    ambulanceConfidenceHistory := []
    ambulancePositionHistory := []
    minTrackletFrames := 3
    stabilityRatio := 6/10
    minConfidenceForStability := 4/100 }

/-- Python `l[-n:]` for `n ≥ 1`: the last `min n (length l)` elements.
(The gate only slices with `n = min_tracklet_frames = 3` and `n = 5`.) -/
def lastN {α : Type} (n : Nat) (l : List α) : List α :=
  l.drop (l.length - n)

/-- `sum(bools)` in Python: the number of `True` samples. -/
def boolSum (l : List Bool) : Nat := (l.filter id).length

/-- `np.mean` of a list of rationals. -/
def listMean (l : List ℚ) : ℚ := l.sum / l.length

/-- `np.var` (population variance, `ddof = 0`). -/
def listVar (l : List ℚ) : ℚ := listMean (l.map (fun x => (x - listMean l) ^ 2))

/-- `_calculate_position_variance`: sum of the coordinate variances. -/
def calculate_position_variance (positions : List Point) : ℚ :=
  if positions.length < 2 then 0
  else listVar (positions.map Prod.fst) + listVar (positions.map Prod.snd)

/-- Criterion 2 of `_is_enhanced_stable_detection`: confidence consistency
over the last `min_tracklet_frames` positive confidences.
`np.std(xs) > 0.25` is modelled by the equivalent `listVar xs > 1/16`. -/
def confidenceConsistencyOk (st : StabilityState) : Bool :=
  if st.minTrackletFrames ≤ st.ambulanceConfidenceHistory.length then
    let recentConfidences :=
      (lastN st.minTrackletFrames st.ambulanceConfidenceHistory).filter
        (fun c => 0 < c)
    if recentConfidences.length ≠ 0 then
      let avgConfidence := listMean recentConfidences
      if avgConfidence < st.minConfidenceForStability then false
      else if (1:ℚ)/16 < listVar recentConfidences then false
      else true
    else true
  else true

/-- Criterion 3 of `_is_enhanced_stable_detection`: position stability over
the last 5 recorded centroids. -/
def positionStabilityOk (st : StabilityState) : Bool :=
  if 5 ≤ st.ambulancePositionHistory.length then
    decide (calculate_position_variance (lastN 5 st.ambulancePositionHistory) ≤ 50000)
  else true

/-- Criterion 4 of `_is_enhanced_stable_detection`: the strongest current
detection must not be too weak. -/
def currentDetectionQualityOk (currentDetections : List Detection) : Bool :=
  match currentDetections with
  | [] => true
  | d :: ds =>
      decide ((1:ℚ)/10 ≤ (ds.map Detection.confidence).foldl max d.confidence)

/-- `_is_enhanced_stable_detection`: the multi-criteria stability check.
Criterion 1 (detection frequency) uses the last `min_tracklet_frames`
samples of the detection history. -/
def is_enhanced_stable_detection (st : StabilityState)
    (currentDetections : List Detection) : Bool :=
  if st.ambulanceDetectionHistory.length < st.minTrackletFrames then false
  else
    let recentDetections := lastN st.minTrackletFrames st.ambulanceDetectionHistory
    let detectionRate : ℚ := (boolSum recentDetections : ℚ) / recentDetections.length
    if detectionRate < st.stabilityRatio then false
    else if ¬ confidenceConsistencyOk st then false
    else if ¬ positionStabilityOk st then false
    else currentDetectionQualityOk currentDetections

/-! ### Per-frame counting loop of `ONNXTrafficDetector.process_frame` -/

/-- One id of the zone-counting loop of `process_frame`: skip ids already in
`counted_ids`, otherwise run `check_zone_counting` and increment
`vehicle_count` on a fresh count. -/
def zoneCountStep (acc : TrackerState × Nat) (objId : Nat) : TrackerState × Nat :=
  if objId ∈ acc.1.countedIds then acc
  else
    let r := check_zone_counting acc.1 objId
    if r.1 then (r.2, acc.2 + 1) else (r.2, acc.2)

/-- One id of the legacy line-crossing loop of `process_frame`: skip ids
already in `crossed_ids`; when direction filtering is enabled, vehicles not
moving towards the camera are tallied as filtered instead of counted;
otherwise run `check_line_crossing` and increment `vehicle_count` on a fresh
crossing.  The accumulator is (tracker, vehicle_count, filtered_count). -/
def lineCountStep (directionFilterEnabled : Bool) (lineY : ℚ)
    (acc : TrackerState × Nat × Nat) (objId : Nat) : TrackerState × Nat × Nat :=
  if objId ∈ acc.1.crossedIds then acc
  else if directionFilterEnabled ∧ ¬ is_moving_towards_camera acc.1 objId then
    (acc.1, acc.2.1, acc.2.2 + 1)
  else
    let r := check_line_crossing acc.1 objId lineY
    if r.1 then (r.2, acc.2.1 + 1, acc.2.2) else (r.2, acc.2.1, acc.2.2)

/-! ### Public operations and reachable tracker states -/

/-- A public operation on the tracker (the operations `process_frame`
performs on it). -/
inductive Op where
  | upd (detections : List Detection)
  | zone (objectId : Nat)
  | line (objectId : Nat) (lineY : ℚ)
deriving Repr

/-- Apply one public operation (keeping only the state). -/
def applyOp (s : TrackerState) : Op → TrackerState
  | Op.upd detections => update s detections
  | Op.zone objectId => (check_zone_counting s objectId).2
  | Op.line objectId lineY => (check_line_crossing s objectId lineY).2

/-- Run a sequence of public operations. -/
def runOps (s : TrackerState) (ops : List Op) : TrackerState :=
  ops.foldl applyOp s

/-- The ids assigned by `_register` during one operation (empty for the
counting checks, which never register). -/
def assignedDuring (s : TrackerState) : Op → List Nat
  | Op.upd detections => (updateAssigning s detections).2
  | Op.zone _ => []
  | Op.line _ _ => []

/-- All ids assigned along a run of public operations, in assignment
order. -/
def assignedAlong (s : TrackerState) : List Op → List Nat
  | [] => []
  | op :: rest => assignedDuring s op ++ assignedAlong (applyOp s op) rest

/-- Tracker states reachable from a fresh `ONNXVehicleTracker` through the
public operations. -/
inductive Reachable : TrackerState → Prop where
  | init (maxDisappeared : Nat) (maxDistance : ℚ) :
      Reachable (initState maxDisappeared maxDistance)
  | step (s : TrackerState) (op : Op) : Reachable s → Reachable (applyOp s op)

/-- Reference order for greedy matching: ascending numeric id (insertion
sort). -/
def insertAsc (x : Nat) : List Nat → List Nat
  | [] => [x]
  | y :: rest => if x ≤ y then x :: y :: rest else y :: insertAsc x rest

/-- Ascending insertion sort on ids. -/
def sortAsc (l : List Nat) : List Nat := l.foldr insertAsc []

/-- The greedy matching phase, as the spec words it: tracks processed in
ascending numeric id order. -/
def referenceMatchResults (s : TrackerState) (detections : List Detection) :
    TrackerState × List Nat × List Nat :=
  let objectIds := sortAsc (s.objects.map Prod.fst)
  let objectCenters := objectIds.map
    (fun objId => get_center (((dictGet s.objects objId).getD default).bbox))
  let detectionCenters := detections.map (fun det => get_center det.bbox)
  (objectIds.zip objectCenters).foldl
    (matchStep detections detectionCenters) (s, [], [])

/-- The keys of a tracker's object table, in the iteration order of
`list(self.objects.keys())`. -/
def objectKeys (s : TrackerState) : List Nat := s.objects.map Prod.fst

/-! ### Concrete inputs for the witnesses and counterexamples below -/

/-- A detection with box `[0, 0, 2, 2]`. -/
def detA : Detection := ⟨[0, 0, 2, 2], 9/10, "vehicle"⟩

/-- A detection with box `[1, 1, 3, 3]`, one pixel away from `detA`. -/
def detB : Detection := ⟨[1, 1, 3, 3], 8/10, "vehicle"⟩

/-- A detection far away from `detA` (beyond `max_distance`). -/
def detFar : Detection := ⟨[500, 500, 502, 502], 1/2, "vehicle"⟩

/-- A fresh tracker after one frame with one detection: a single track 0. -/
def sOne : TrackerState := update (initState 30 100) [detA]

/-- `sOne` after a second frame in which track 0 matches `detB` and its box
is smoothed. -/
def sTwoFrames : TrackerState := update sOne [detB]

/-- A tracker whose track 0 is already counted and already crossed. -/
def sCounted : TrackerState :=
  { initState 30 100 with countedIds := [0], crossedIds := [0] }

/-- A tracker with a 5-point trajectory for track 0 ending at y = 349,
zone entry recorded at y = 300. -/
def sZone349 : TrackerState :=
  { initState 30 100 with
    objects := [(0, default)]
    trajectoryPoints := [(0, [(0, 300), (0, 310), (0, 320), (0, 330), (0, 349)])]
    zoneEntryPositions := [(0, 300)] }

/-- `sZone349` with the last trajectory point at y = 350 instead. -/
def sZone350 : TrackerState :=
  { sZone349 with
    trajectoryPoints := [(0, [(0, 300), (0, 310), (0, 320), (0, 330), (0, 350)])] }

/-- A tracker whose track 0 has only a 2-point trajectory, already moved
100 pixels forward. -/
def sShortTraj : TrackerState :=
  { initState 30 100 with
    objects := [(0, default)]
    trajectoryPoints := [(0, [(0, 300), (0, 400)])] }

/-- A tracker with a single track 0 whose disappearance counter is 0. -/
def sDisp : TrackerState :=
  { initState 30 100 with objects := [(0, default)], disappeared := [(0, 0)] }

/-- A raw prediction matrix with no class-score columns: a malformed
`(1, 4)` output tensor. -/
def malformedRows : List (List ℚ) := [[1, 2, 3, 4]]

/-- Stability state with 3 of the 5 most recent detection samples `True`,
but only 1 of the most recent 3 (the disproof input for the 5-sample
window reading). -/
def stThreeOfFive : StabilityState :=
  { initStability with
    ambulanceDetectionHistory := [true, true, true, false, false]
    ambulanceConfidenceHistory := [1/2, 1/2, 1/2, 1/2, 1/2] }

/-- Stability state with 2 of the most recent 3 detection samples `True`. -/
def stTwoOfThree : StabilityState :=
  { initStability with
    ambulanceDetectionHistory := [false, false, false, true, true]
    ambulanceConfidenceHistory := [1/2, 1/2, 1/2, 1/2, 1/2] }

/-- Stability state with 1 of the most recent 3 detection samples `True`. -/
def stOneOfThree : StabilityState :=
  { initStability with
    ambulanceDetectionHistory := [true, true, false, true, false]
    ambulanceConfidenceHistory := [1/2, 1/2, 1/2, 1/2, 1/2] }

/-- A tracker with one track 0 at box `[0, 0, 2, 2]`, used to exercise the
matching-loop body directly. -/
def stMatch : TrackerState :=
  { initState 30 100 with
    objects := [(0, ⟨[0, 0, 2, 2], "vehicle", 9/10, [[0, 0, 2, 2]]⟩)] }

/-! ### Helper lemmas: ordered-dict operations -/

theorem dictGet_dictSet_self {α : Type} (l : List (Nat × α)) (k : Nat) (v : α) :
    dictGet (dictSet l k v) k = some v := by
  induction l with
  | nil => simp [dictSet, dictGet]
  | cons p rest ih =>
      obtain ⟨k0, v0⟩ := p
      by_cases h : k0 = k
      · simp [dictSet, dictGet, h]
      · simp [dictSet, dictGet, h, ih]

theorem dictGet_dictSet_ne {α : Type} (l : List (Nat × α)) (k k2 : Nat) (v : α)
    (h : k2 ≠ k) : dictGet (dictSet l k v) k2 = dictGet l k2 := by
  have hne : k ≠ k2 := Ne.symm h
  induction l with
  | nil => simp [dictSet, dictGet, hne]
  | cons p rest ih =>
      obtain ⟨k0, v0⟩ := p
      by_cases h0 : k0 = k
      · subst h0
        simp [dictSet, dictGet, hne]
      · by_cases h2 : k0 = k2 <;> simp [dictSet, dictGet, h0, h2, h, ih]

theorem dictGet_some_mem {α : Type} (l : List (Nat × α)) (k : Nat) (v : α)
    (h : dictGet l k = some v) : k ∈ l.map Prod.fst := by
  induction l with
  | nil => simp [dictGet] at h
  | cons p rest ih =>
      obtain ⟨k0, v0⟩ := p
      by_cases h0 : k0 = k
      · simp [h0]
      · simp only [dictGet, h0, if_false] at h
        simpa using Or.inr (ih h)

theorem keys_dictSet_mem {α : Type} (l : List (Nat × α)) (k : Nat) (v : α)
    (h : k ∈ l.map Prod.fst) : (dictSet l k v).map Prod.fst = l.map Prod.fst := by
  induction l with
  | nil => simp at h
  | cons p rest ih =>
      obtain ⟨k0, v0⟩ := p
      by_cases h0 : k0 = k
      · simp [dictSet, h0]
      · simp only [List.map_cons, List.mem_cons] at h
        rcases h with h | h
        · exact absurd h.symm h0
        · simp [dictSet, h0, ih h]

theorem keys_dictSet_not_mem {α : Type} (l : List (Nat × α)) (k : Nat) (v : α)
    (h : k ∉ l.map Prod.fst) :
    (dictSet l k v).map Prod.fst = l.map Prod.fst ++ [k] := by
  induction l with
  | nil => simp [dictSet]
  | cons p rest ih =>
      obtain ⟨k0, v0⟩ := p
      simp only [List.map_cons, List.mem_cons] at h
      push_neg at h
      have hne : k0 ≠ k := Ne.symm h.1
      simp [dictSet, hne, ih h.2]

theorem dictDel_cons {α : Type} (k0 : Nat) (v0 : α) (rest : List (Nat × α))
    (k : Nat) :
    dictDel ((k0, v0) :: rest) k =
      if k0 = k then dictDel rest k else (k0, v0) :: dictDel rest k := by
  by_cases h : k0 = k <;> simp [dictDel, List.filter_cons, h]

theorem dictGet_dictDel_ne {α : Type} (l : List (Nat × α)) (k k2 : Nat)
    (h : k2 ≠ k) : dictGet (dictDel l k) k2 = dictGet l k2 := by
  have hne : k ≠ k2 := Ne.symm h
  induction l with
  | nil => simp [dictDel, dictGet]
  | cons p rest ih =>
      obtain ⟨k0, v0⟩ := p
      rw [dictDel_cons]
      by_cases h0 : k0 = k
      · subst h0
        rw [if_pos rfl, ih]
        simp [dictGet, hne]
      · rw [if_neg h0]
        by_cases h2 : k0 = k2 <;> simp [dictGet, h2, ih]

theorem keys_dictDel_sublist {α : Type} (l : List (Nat × α)) (k : Nat) :
    ((dictDel l k).map Prod.fst).Sublist (l.map Prod.fst) :=
  List.Sublist.map Prod.fst (List.filter_sublist l)

theorem mem_keys_dictDel {α : Type} (l : List (Nat × α)) (k k2 : Nat) :
    k2 ∈ (dictDel l k).map Prod.fst ↔ k2 ∈ l.map Prod.fst ∧ k2 ≠ k := by
  simp only [dictDel, List.mem_map, List.mem_filter]
  constructor
  · rintro ⟨p, ⟨hp, hne⟩, rfl⟩
    exact ⟨⟨p, hp, rfl⟩, by simpa using hne⟩
  · rintro ⟨⟨p, hp, rfl⟩, hne⟩
    exact ⟨p, ⟨hp, by simpa using hne⟩, rfl⟩

theorem not_mem_keys_dictDel_self {α : Type} (l : List (Nat × α)) (k : Nat) :
    k ∉ (dictDel l k).map Prod.fst := by
  intro hmem
  exact ((mem_keys_dictDel l k k).mp hmem).2 rfl

theorem nodup_keys_dictSet {α : Type} (l : List (Nat × α)) (k : Nat) (v : α)
    (h : (l.map Prod.fst).Nodup) : ((dictSet l k v).map Prod.fst).Nodup := by
  by_cases hk : k ∈ l.map Prod.fst
  · rwa [keys_dictSet_mem l k v hk]
  · rw [keys_dictSet_not_mem l k v hk, List.nodup_append]
    refine ⟨h, List.nodup_singleton k, ?_⟩
    intro a ha hb
    simp only [List.mem_singleton] at hb
    subst hb
    exact absurd ha hk

theorem nodup_keys_dictDel {α : Type} (l : List (Nat × α)) (k : Nat)
    (h : (l.map Prod.fst).Nodup) : ((dictDel l k).map Prod.fst).Nodup :=
  (keys_dictDel_sublist l k).nodup h

theorem pairwise_keys_dictDel {α : Type} (l : List (Nat × α)) (k : Nat)
    (h : (l.map Prod.fst).Pairwise (· < ·)) :
    ((dictDel l k).map Prod.fst).Pairwise (· < ·) :=
  List.Pairwise.sublist (keys_dictDel_sublist l k) h

/-! ### Helper lemmas: generic fold preservation -/

theorem foldl_preserves {α σ : Type} (f : σ → α → σ) (P : σ → Prop)
    (hf : ∀ st x, P st → P (f st x)) :
    ∀ (l : List α) (s : σ), P s → P (l.foldl f s) := by
  intro l
  induction l with
  | nil => intro s hs; simpa using hs
  | cons x rest ih => intro s hs; exact ih (f s x) (hf s x hs)

/-! ### Helper lemmas: the id-ordering invariant of the track table -/

/-- Invariant of the track table: the keys of `objects` are strictly
increasing in iteration (insertion) order, and all of them lie below
`next_id`. -/
def goodKeys (s : TrackerState) : Prop :=
  (objectKeys s).Pairwise (· < ·) ∧ ∀ k ∈ objectKeys s, k < s.nextId

theorem update_trajectory_objects (s : TrackerState) (oid : Nat) (bbox : List ℚ) :
    (update_trajectory s oid bbox).objects = s.objects := rfl

theorem update_trajectory_nextId (s : TrackerState) (oid : Nat) (bbox : List ℚ) :
    (update_trajectory s oid bbox).nextId = s.nextId := rfl

theorem register_nextId (s : TrackerState) (det : Detection) :
    (register s det).1.nextId = s.nextId + 1 := rfl

theorem register_id (s : TrackerState) (det : Detection) :
    (register s det).2 = s.nextId := rfl

theorem register_objectKeys (s : TrackerState) (det : Detection)
    (h : ∀ k ∈ objectKeys s, k < s.nextId) :
    objectKeys (register s det).1 = objectKeys s ++ [s.nextId] := by
  have hnm : s.nextId ∉ objectKeys s := fun hmem => lt_irrefl _ (h _ hmem)
  show (dictSet s.objects s.nextId _).map Prod.fst = _
  exact keys_dictSet_not_mem _ _ _ hnm

theorem goodKeys_register (s : TrackerState) (det : Detection)
    (h : goodKeys s) : goodKeys (register s det).1 := by
  obtain ⟨hpw, hlt⟩ := h
  constructor
  · rw [register_objectKeys s det hlt, List.pairwise_append]
    refine ⟨hpw, List.pairwise_singleton _ _, ?_⟩
    intro a ha b hb
    simp only [List.mem_singleton] at hb
    subst hb
    exact hlt a ha
  · intro k hk
    rw [register_objectKeys s det hlt, List.mem_append] at hk
    rw [register_nextId]
    rcases hk with hk | hk
    · exact Nat.lt_succ_of_lt (hlt k hk)
    · simp only [List.mem_singleton] at hk
      subst hk
      exact Nat.lt_succ_self _

theorem deregister_nextId (s : TrackerState) (oid : Nat) :
    (deregister s oid).nextId = s.nextId := rfl

theorem goodKeys_deregister (s : TrackerState) (oid : Nat)
    (h : goodKeys s) : goodKeys (deregister s oid) := by
  obtain ⟨hpw, hlt⟩ := h
  refine ⟨pairwise_keys_dictDel _ _ hpw, ?_⟩
  intro k hk
  exact hlt k ((mem_keys_dictDel _ _ _).mp hk).1

theorem disappearedStep_nextId (st : TrackerState) (oid : Nat) :
    (disappearedStep st oid).nextId = st.nextId := by
  unfold disappearedStep
  dsimp only
  split <;> rfl

theorem disappearedStep_maxDisappeared (st : TrackerState) (oid : Nat) :
    (disappearedStep st oid).maxDisappeared = st.maxDisappeared := by
  unfold disappearedStep
  dsimp only
  split <;> rfl

theorem goodKeys_disappearedStep (st : TrackerState) (oid : Nat)
    (h : goodKeys st) : goodKeys (disappearedStep st oid) := by
  unfold disappearedStep
  dsimp only
  split
  · exact goodKeys_deregister _ _ h
  · exact h

theorem goodKeys_updateNoDetections (s : TrackerState)
    (h : goodKeys s) : goodKeys (updateNoDetections s) :=
  foldl_preserves disappearedStep goodKeys
    (fun st x hst => goodKeys_disappearedStep st x hst) _ s h

theorem matchStep_objects (detections : List Detection)
    (detectionCenters : List Point) (acc : TrackerState × List Nat × List Nat)
    (oc : Nat × Point) (h : oc.1 ∈ objectKeys acc.1) :
    objectKeys (matchStep detections detectionCenters acc oc).1 = objectKeys acc.1 ∧
      (matchStep detections detectionCenters acc oc).1.nextId = acc.1.nextId := by
  unfold matchStep
  dsimp only
  split
  · exact ⟨rfl, rfl⟩
  · split
    · exact ⟨rfl, rfl⟩
    · constructor
      · show (dictSet acc.1.objects oc.1 _).map Prod.fst = _
        exact keys_dictSet_mem _ _ _ h
      · rfl

theorem matchFold_objects (detections : List Detection)
    (detectionCenters : List Point) :
    ∀ (l : List (Nat × Point)) (acc : TrackerState × List Nat × List Nat),
      (∀ p ∈ l, p.1 ∈ objectKeys acc.1) →
      objectKeys (l.foldl (matchStep detections detectionCenters) acc).1 =
          objectKeys acc.1 ∧
        (l.foldl (matchStep detections detectionCenters) acc).1.nextId =
          acc.1.nextId := by
  intro l
  induction l with
  | nil => intro acc _; exact ⟨rfl, rfl⟩
  | cons p rest ih =>
      intro acc hmem
      have hp := hmem p (List.mem_cons_self _ _)
      have hstep := matchStep_objects detections detectionCenters acc p hp
      have hrest : ∀ q ∈ rest,
          q.1 ∈ objectKeys (matchStep detections detectionCenters acc p).1 := by
        intro q hq
        rw [hstep.1]
        exact hmem q (List.mem_cons_of_mem _ hq)
      have := ih (matchStep detections detectionCenters acc p) hrest
      simp only [List.foldl_cons]
      exact ⟨this.1.trans hstep.1, this.2.trans hstep.2⟩

theorem matchResults_objects (s : TrackerState) (detections : List Detection) :
    objectKeys (matchResults s detections).1 = objectKeys s ∧
      (matchResults s detections).1.nextId = s.nextId := by
  unfold matchResults
  dsimp only
  apply matchFold_objects
  intro p hp
  show p.1 ∈ List.map Prod.fst s.objects
  have hp1 := List.mem_map_of_mem Prod.fst hp
  rw [List.map_fst_zip] at hp1
  · exact hp1
  · simp

theorem goodKeys_registerStep (p : TrackerState × List Nat) (det : Detection)
    (h : goodKeys p.1) : goodKeys (registerStep p det).1 :=
  goodKeys_register _ _ h

theorem goodKeys_registerFold (detections : List Detection)
    (p : TrackerState × List Nat) (h : goodKeys p.1) :
    goodKeys (detections.foldl registerStep p).1 :=
  foldl_preserves registerStep (fun p => goodKeys p.1)
    (fun q det hq => goodKeys_registerStep q det hq) _ p h

theorem goodKeys_registerIfFold (detections : List Detection)
    (matchedDetections : List Nat) (idxs : List Nat)
    (p : TrackerState × List Nat) (h : goodKeys p.1) :
    goodKeys (idxs.foldl
      (registerUnmatchedStep detections matchedDetections) p).1 := by
  refine foldl_preserves (registerUnmatchedStep detections matchedDetections)
    (fun q => goodKeys q.1) ?_ idxs p h
  intro q i hq
  unfold registerUnmatchedStep
  split
  · exact hq
  · exact goodKeys_registerStep q _ hq

theorem goodKeys_disappearedIfFold (matchedObjects : List Nat)
    (idxs : List Nat) (st : TrackerState) (h : goodKeys st) :
    goodKeys (idxs.foldl (agingStep matchedObjects) st) := by
  apply foldl_preserves _ goodKeys _ _ _ h
  intro st2 objId h2
  unfold agingStep
  split
  · exact h2
  · exact goodKeys_disappearedStep st2 objId h2

theorem goodKeys_updateAssigning (s : TrackerState) (detections : List Detection)
    (h : goodKeys s) : goodKeys (updateAssigning s detections).1 := by
  unfold updateAssigning
  dsimp only
  split
  · exact goodKeys_updateNoDetections s h
  · split
    · exact goodKeys_registerFold detections (s, []) h
    · apply goodKeys_disappearedIfFold
      apply goodKeys_registerIfFold
      have := matchResults_objects s detections
      exact ⟨this.1 ▸ h.1, fun k hk => this.2 ▸ h.2 k (this.1 ▸ hk)⟩

theorem goodKeys_update (s : TrackerState) (detections : List Detection)
    (h : goodKeys s) : goodKeys (update s detections) :=
  goodKeys_updateAssigning s detections h

theorem check_zone_counting_objects (s : TrackerState) (oid : Nat) :
    (check_zone_counting s oid).2.objects = s.objects ∧
      (check_zone_counting s oid).2.nextId = s.nextId := by
  unfold check_zone_counting
  dsimp only
  repeat first | exact ⟨rfl, rfl⟩ | split

theorem check_line_crossing_objects (s : TrackerState) (oid : Nat) (lineY : ℚ) :
    (check_line_crossing s oid lineY).2.objects = s.objects ∧
      (check_line_crossing s oid lineY).2.nextId = s.nextId := by
  unfold check_line_crossing
  dsimp only
  repeat first | exact ⟨rfl, rfl⟩ | split

theorem goodKeys_applyOp (s : TrackerState) (op : Op) (h : goodKeys s) :
    goodKeys (applyOp s op) := by
  cases op with
  | upd detections => exact goodKeys_update s detections h
  | zone oid =>
      have hz := check_zone_counting_objects s oid
      show goodKeys (check_zone_counting s oid).2
      unfold goodKeys objectKeys
      rw [hz.1, hz.2]
      exact h
  | line oid lineY =>
      have hl := check_line_crossing_objects s oid lineY
      show goodKeys (check_line_crossing s oid lineY).2
      unfold goodKeys objectKeys
      rw [hl.1, hl.2]
      exact h

theorem goodKeys_initState (maxDisappeared : Nat) (maxDistance : ℚ) :
    goodKeys (initState maxDisappeared maxDistance) := by
  exact ⟨List.Pairwise.nil, by intro k hk; simp [initState, objectKeys] at hk⟩

theorem reachable_goodKeys (s : TrackerState) (h : Reachable s) : goodKeys s := by
  induction h with
  | init maxDisappeared maxDistance => exact goodKeys_initState maxDisappeared maxDistance
  | step s op _ ih => exact goodKeys_applyOp s op ih

/-! ### Helper lemmas: ascending-id iteration order (sorted keys) -/

theorem insertAsc_of_le (x : Nat) (l : List Nat) (h : ∀ y ∈ l, x ≤ y) :
    insertAsc x l = x :: l := by
  cases l with
  | nil => rfl
  | cons y rest =>
      simp [insertAsc, h y (List.mem_cons_self _ _)]

theorem sortAsc_eq_self (l : List Nat) (h : l.Pairwise (· < ·)) :
    sortAsc l = l := by
  induction l with
  | nil => rfl
  | cons a rest ih =>
      have h1 : ∀ y ∈ rest, a ≤ y := fun y hy =>
        le_of_lt ((List.pairwise_cons.mp h).1 y hy)
      have h2 := ih ((List.pairwise_cons.mp h).2)
      show insertAsc a (sortAsc rest) = a :: rest
      rw [h2, insertAsc_of_le a rest h1]

theorem matchResults_eq_reference (s : TrackerState) (detections : List Detection)
    (h : (objectKeys s).Pairwise (· < ·)) :
    matchResults s detections = referenceMatchResults s detections := by
  unfold matchResults referenceMatchResults
  rw [sortAsc_eq_self (List.map Prod.fst s.objects) (by simpa [objectKeys] using h)]

/-! ### Helper lemmas: assigned ids along runs of public operations -/

theorem mem_range'_bounds (s n m : Nat) (h : m ∈ List.range' s n) :
    s ≤ m ∧ m < s + n := by
  rw [List.mem_range'] at h
  obtain ⟨i, hi, rfl⟩ := h
  omega

theorem pairwise_lt_range' (s n : Nat) : (List.range' s n).Pairwise (· < ·) := by
  induction n generalizing s with
  | zero => exact List.Pairwise.nil
  | succ n ih =>
      rw [List.range'_succ, List.pairwise_cons]
      exact ⟨fun b hb => lt_of_lt_of_le (Nat.lt_succ_self s)
        (mem_range'_bounds _ _ _ hb).1, ih (s + 1)⟩

theorem updateNoDetections_nextId (s : TrackerState) :
    (updateNoDetections s).nextId = s.nextId := by
  unfold updateNoDetections
  exact foldl_preserves disappearedStep (fun st => st.nextId = s.nextId)
    (fun st x hx => (disappearedStep_nextId st x).trans hx) _ s rfl

theorem registerStep_snd (p : TrackerState × List Nat) (det : Detection) :
    (registerStep p det).2 = p.2 ++ [p.1.nextId] := rfl

theorem registerStep_nextId (p : TrackerState × List Nat) (det : Detection) :
    (registerStep p det).1.nextId = p.1.nextId + 1 := rfl

theorem registerFold_assigned (detections : List Detection) :
    ∀ (p : TrackerState × List Nat),
      (detections.foldl registerStep p).2 =
          p.2 ++ List.range' p.1.nextId detections.length ∧
      (detections.foldl registerStep p).1.nextId =
          p.1.nextId + detections.length := by
  induction detections with
  | nil => intro p; simp
  | cons det rest ih =>
      intro p
      have h := ih (registerStep p det)
      simp only [List.foldl_cons, List.length_cons]
      rw [List.range'_succ]
      constructor
      · rw [h.1, registerStep_snd, registerStep_nextId]
        simp
      · rw [h.2, registerStep_nextId]
        omega

theorem registerIfFold_assigned (detections : List Detection)
    (matchedDetections : List Nat) (idxs : List Nat) :
    ∀ (p : TrackerState × List Nat),
      (idxs.foldl (registerUnmatchedStep detections matchedDetections) p).2 =
          p.2 ++ List.range' p.1.nextId
            ((idxs.foldl (registerUnmatchedStep detections matchedDetections)
              p).1.nextId - p.1.nextId) ∧
      p.1.nextId ≤
        (idxs.foldl (registerUnmatchedStep detections matchedDetections)
          p).1.nextId := by
  induction idxs with
  | nil => intro p; simp
  | cons i rest ih =>
      intro p
      simp only [List.foldl_cons]
      by_cases hi : i ∈ matchedDetections
      · rw [show registerUnmatchedStep detections matchedDetections p i = p by
          simp [registerUnmatchedStep, hi]]
        exact ih p
      · rw [show registerUnmatchedStep detections matchedDetections p i =
          registerStep p (detections.getD i ⟨[], 0, "vehicle"⟩) by
            simp [registerUnmatchedStep, hi]]
        have h := ih (registerStep p (detections.getD i ⟨[], 0, "vehicle"⟩))
        rw [registerStep_snd, registerStep_nextId] at h
        obtain ⟨h1, h2⟩ := h
        refine ⟨?_, by omega⟩
        rw [h1]
        have hn : (rest.foldl (registerUnmatchedStep detections matchedDetections)
            (registerStep p (detections.getD i ⟨[], 0, "vehicle"⟩))).1.nextId -
              p.1.nextId =
            ((rest.foldl (registerUnmatchedStep detections matchedDetections)
              (registerStep p (detections.getD i ⟨[], 0, "vehicle"⟩))).1.nextId -
                (p.1.nextId + 1)) + 1 := by omega

        rw [hn, List.range'_succ]
        simp

theorem disappearedIfFold_nextId (matchedObjects : List Nat)
    (idxs : List Nat) (st : TrackerState) :
    (idxs.foldl (agingStep matchedObjects) st).nextId = st.nextId := by
  refine foldl_preserves (agingStep matchedObjects)
    (fun st2 => st2.nextId = st.nextId) ?_ idxs st rfl
  intro st2 objId h2
  unfold agingStep
  split
  · exact h2
  · exact (disappearedStep_nextId st2 objId).trans h2

theorem updateAssigning_assigned (s : TrackerState) (detections : List Detection) :
    (updateAssigning s detections).2 =
      List.range' s.nextId ((updateAssigning s detections).1.nextId - s.nextId) ∧
    s.nextId ≤ (updateAssigning s detections).1.nextId := by
  unfold updateAssigning
  dsimp only
  split
  · rw [updateNoDetections_nextId]
    simp
  · split
    · have := registerFold_assigned detections (s, [])
      rw [this.1, this.2]
      simp
    · have hmr := (matchResults_objects s detections).2
      have hreg := registerIfFold_assigned detections
        (matchResults s detections).2.1 (List.range detections.length)
        ((matchResults s detections).1, [])
      rw [disappearedIfFold_nextId]
      rw [hreg.1]
      simp only [List.nil_append]
      rw [hmr]
      exact ⟨rfl, le_trans (Nat.le_refl _) (hmr ▸ hreg.2)⟩

theorem assignedDuring_spec (s : TrackerState) (op : Op) :
    assignedDuring s op =
      List.range' s.nextId ((applyOp s op).nextId - s.nextId) ∧
    s.nextId ≤ (applyOp s op).nextId := by
  cases op with
  | upd detections => exact updateAssigning_assigned s detections
  | zone oid =>
      have h := (check_zone_counting_objects s oid).2
      show ([] : List Nat) = _ ∧ _
      rw [show (applyOp s (Op.zone oid)).nextId = s.nextId from h]
      simp [assignedDuring]
  | line oid lineY =>
      have h := (check_line_crossing_objects s oid lineY).2
      show ([] : List Nat) = _ ∧ _
      rw [show (applyOp s (Op.line oid lineY)).nextId = s.nextId from h]
      simp [assignedDuring]

theorem runOps_cons (s : TrackerState) (op : Op) (ops : List Op) :
    runOps s (op :: ops) = runOps (applyOp s op) ops := rfl

theorem assignedAlong_spec (ops : List Op) :
    ∀ s : TrackerState,
      (assignedAlong s ops).Pairwise (· < ·) ∧
      (∀ j ∈ assignedAlong s ops, s.nextId ≤ j ∧ j < (runOps s ops).nextId) ∧
      s.nextId ≤ (runOps s ops).nextId := by
  induction ops with
  | nil =>
      intro s
      exact ⟨List.Pairwise.nil, by simp [assignedAlong], le_refl _⟩
  | cons op rest ih =>
      intro s
      obtain ⟨hd, hmono⟩ := assignedDuring_spec s op
      obtain ⟨ihpw, ihb, ihmono⟩ := ih (applyOp s op)
      rw [show assignedAlong s (op :: rest) =
        assignedDuring s op ++ assignedAlong (applyOp s op) rest from rfl,
        runOps_cons]
      refine ⟨?_, ?_, le_trans hmono ihmono⟩
      · rw [List.pairwise_append]
        refine ⟨hd ▸ pairwise_lt_range' _ _, ihpw, ?_⟩
        intro a ha b hb
        have ha2 := mem_range'_bounds _ _ _ (hd ▸ ha)
        have hb2 := (ihb b hb).1
        omega
      · intro j hj
        rw [List.mem_append] at hj
        rcases hj with hj | hj
        · have := mem_range'_bounds _ _ _ (hd ▸ hj)
          omega
        · have := ihb j hj
          omega

theorem reachable_runOps (ops : List Op) :
    ∀ s : TrackerState, Reachable s → Reachable (runOps s ops) := by
  induction ops with
  | nil => intro s h; exact h
  | cons op rest ih => intro s h; exact ih _ (Reachable.step s op h)

/-! ### Helper lemmas: disappearance aging (`update` with no detections) -/

theorem disappearedStep_other (st : TrackerState) (k oid : Nat) (h : k ≠ oid) :
    dictGet (disappearedStep st oid).disappeared k = dictGet st.disappeared k ∧
      (k ∈ objectKeys (disappearedStep st oid) ↔ k ∈ objectKeys st) := by
  unfold disappearedStep
  dsimp only
  split
  · constructor
    · show dictGet (dictDel (dictSet st.disappeared oid _) oid) k = _
      rw [dictGet_dictDel_ne _ _ _ h, dictGet_dictSet_ne _ _ _ _ h]
    · show k ∈ (dictDel st.objects oid).map Prod.fst ↔ _
      rw [mem_keys_dictDel]
      exact ⟨fun hh => hh.1, fun hh => ⟨hh, h⟩⟩
  · exact ⟨dictGet_dictSet_ne _ _ _ _ h, Iff.rfl⟩

theorem disappearedStep_self_keep (st : TrackerState) (oid d : Nat)
    (h : dictGet st.disappeared oid = some d) (hle : d + 1 ≤ st.maxDisappeared) :
    dictGet (disappearedStep st oid).disappeared oid = some (d + 1) ∧
      (disappearedStep st oid).objects = st.objects := by
  unfold disappearedStep
  dsimp only
  rw [h]
  simp only [Option.getD_some]
  rw [if_neg (by omega)]
  exact ⟨dictGet_dictSet_self _ _ _, rfl⟩

theorem disappearedStep_self_drop (st : TrackerState) (oid d : Nat)
    (h : dictGet st.disappeared oid = some d) (hgt : st.maxDisappeared < d + 1) :
    oid ∉ objectKeys (disappearedStep st oid) := by
  unfold disappearedStep
  dsimp only
  rw [h]
  simp only [Option.getD_some]
  rw [if_pos hgt]
  exact not_mem_keys_dictDel_self _ _

theorem nodup_disappearedStep (st : TrackerState) (oid : Nat)
    (h : (st.disappeared.map Prod.fst).Nodup) :
    ((disappearedStep st oid).disappeared.map Prod.fst).Nodup := by
  unfold disappearedStep
  dsimp only
  split
  · exact nodup_keys_dictDel _ _ (nodup_keys_dictSet _ _ _ h)
  · exact nodup_keys_dictSet _ _ _ h

theorem foldl_disappearedStep_other (oid : Nat) (l : List Nat) :
    oid ∉ l →
    ∀ st : TrackerState,
      dictGet (l.foldl disappearedStep st).disappeared oid =
          dictGet st.disappeared oid ∧
        (oid ∈ objectKeys (l.foldl disappearedStep st) ↔ oid ∈ objectKeys st) := by
  induction l with
  | nil => intro _ st; exact ⟨rfl, Iff.rfl⟩
  | cons x rest ih =>
      intro hoid st
      have hx : oid ≠ x := fun hh => hoid (hh ▸ List.mem_cons_self x rest)
      have hstep := disappearedStep_other st oid x hx
      have hrest := ih (fun hh => hoid (List.mem_cons_of_mem x hh))
        (disappearedStep st x)
      simp only [List.foldl_cons]
      exact ⟨hrest.1.trans hstep.1, hrest.2.trans hstep.2⟩

theorem updateNoDetections_nodup (s : TrackerState)
    (h : (s.disappeared.map Prod.fst).Nodup) :
    ((updateNoDetections s).disappeared.map Prod.fst).Nodup :=
  foldl_preserves disappearedStep
    (fun st => (st.disappeared.map Prod.fst).Nodup)
    (fun st x hx => nodup_disappearedStep st x hx) _ s h

theorem updateNoDetections_maxDisappeared (s : TrackerState) :
    (updateNoDetections s).maxDisappeared = s.maxDisappeared :=
  foldl_preserves disappearedStep
    (fun st => st.maxDisappeared = s.maxDisappeared)
    (fun st x hx => (disappearedStep_maxDisappeared st x).trans hx) _ s rfl

theorem nodup_split_of_mem {l : List Nat} {a : Nat} (hmem : a ∈ l)
    (hnd : l.Nodup) :
    ∃ l1 l2, l = l1 ++ a :: l2 ∧ a ∉ l1 ∧ a ∉ l2 := by
  obtain ⟨l1, l2, rfl⟩ := List.append_of_mem hmem
  obtain ⟨hn1, hn2, hdisj⟩ := List.nodup_append.mp hnd
  exact ⟨l1, l2, rfl, fun hh => hdisj hh (List.mem_cons_self _ _),
    (List.nodup_cons.mp hn2).1⟩

theorem updateNoDetections_keep (s : TrackerState) (oid d : Nat)
    (hnd : (s.disappeared.map Prod.fst).Nodup)
    (h : dictGet s.disappeared oid = some d)
    (hobj : oid ∈ objectKeys s)
    (hle : d + 1 ≤ s.maxDisappeared) :
    dictGet (updateNoDetections s).disappeared oid = some (d + 1) ∧
      oid ∈ objectKeys (updateNoDetections s) := by
  have hmem : oid ∈ s.disappeared.map Prod.fst := dictGet_some_mem _ _ _ h
  obtain ⟨l1, l2, hsplit, h1, h2⟩ := nodup_split_of_mem hmem hnd
  unfold updateNoDetections
  rw [hsplit, List.foldl_append, List.foldl_cons]
  have hfold1 := foldl_disappearedStep_other oid l1 h1 s
  have hmax1 : (l1.foldl disappearedStep s).maxDisappeared = s.maxDisappeared :=
    foldl_preserves disappearedStep
      (fun st => st.maxDisappeared = s.maxDisappeared)
      (fun st x hx => (disappearedStep_maxDisappeared st x).trans hx) _ s rfl
  have hkeep := disappearedStep_self_keep (l1.foldl disappearedStep s) oid d
    (hfold1.1.trans h) (by omega)
  have hfold2 := foldl_disappearedStep_other oid l2 h2
    (disappearedStep (l1.foldl disappearedStep s) oid)
  constructor
  · exact hfold2.1.trans hkeep.1
  · rw [hfold2.2]
    show oid ∈ (disappearedStep (l1.foldl disappearedStep s) oid).objects.map Prod.fst
    rw [hkeep.2]
    exact hfold1.2.mpr hobj

theorem updateNoDetections_drop (s : TrackerState) (oid d : Nat)
    (hnd : (s.disappeared.map Prod.fst).Nodup)
    (h : dictGet s.disappeared oid = some d)
    (hgt : s.maxDisappeared < d + 1) :
    oid ∉ objectKeys (updateNoDetections s) := by
  have hmem : oid ∈ s.disappeared.map Prod.fst := dictGet_some_mem _ _ _ h
  obtain ⟨l1, l2, hsplit, h1, h2⟩ := nodup_split_of_mem hmem hnd
  unfold updateNoDetections
  rw [hsplit, List.foldl_append, List.foldl_cons]
  have hfold1 := foldl_disappearedStep_other oid l1 h1 s
  have hmax1 : (l1.foldl disappearedStep s).maxDisappeared = s.maxDisappeared :=
    foldl_preserves disappearedStep
      (fun st => st.maxDisappeared = s.maxDisappeared)
      (fun st x hx => (disappearedStep_maxDisappeared st x).trans hx) _ s rfl
  have hdrop := disappearedStep_self_drop (l1.foldl disappearedStep s) oid d
    (hfold1.1.trans h) (by omega)
  have hfold2 := foldl_disappearedStep_other oid l2 h2
    (disappearedStep (l1.foldl disappearedStep s) oid)
  intro hcontra
  exact hdrop (hfold2.2.mp hcontra)

theorem update_nil_eq (s : TrackerState) :
    update s [] = updateNoDetections s := rfl

/-! ### Helper lemmas: the counted and crossed sets are never shrunk -/

/-- The two at-most-once sets are frozen at given values. -/
def countsFrame (c x : List Nat) (st : TrackerState) : Prop :=
  st.countedIds = c ∧ st.crossedIds = x

theorem disappearedStep_countsFrame (c x : List Nat) (st : TrackerState)
    (oid : Nat) (h : countsFrame c x st) :
    countsFrame c x (disappearedStep st oid) := by
  unfold disappearedStep
  dsimp only
  split
  · exact h
  · exact h

theorem matchStep_countsFrame (c x : List Nat) (detections : List Detection)
    (detectionCenters : List Point) (acc : TrackerState × List Nat × List Nat)
    (oc : Nat × Point) (h : countsFrame c x acc.1) :
    countsFrame c x (matchStep detections detectionCenters acc oc).1 := by
  unfold matchStep
  dsimp only
  split
  · exact h
  · split
    · exact h
    · exact h

theorem registerStep_countsFrame (c x : List Nat) (p : TrackerState × List Nat)
    (det : Detection) (h : countsFrame c x p.1) :
    countsFrame c x (registerStep p det).1 := h

theorem update_countsFrame (s : TrackerState) (detections : List Detection) :
    countsFrame s.countedIds s.crossedIds (update s detections) := by
  show countsFrame s.countedIds s.crossedIds (updateAssigning s detections).1
  unfold updateAssigning
  dsimp only
  split
  · exact foldl_preserves disappearedStep (countsFrame s.countedIds s.crossedIds)
      (fun st o hst => disappearedStep_countsFrame _ _ st o hst) _ s ⟨rfl, rfl⟩
  · split
    · exact foldl_preserves registerStep
        (fun p => countsFrame s.countedIds s.crossedIds p.1)
        (fun p det hp => registerStep_countsFrame _ _ p det hp) _ (s, []) ⟨rfl, rfl⟩
    · have hmr : countsFrame s.countedIds s.crossedIds
          (matchResults s detections).1 := by
        unfold matchResults
        dsimp only
        refine foldl_preserves _
          (fun (q : TrackerState × List Nat × List Nat) =>
            countsFrame s.countedIds s.crossedIds q.1) ?_ _ (s, [], []) ⟨rfl, rfl⟩
        intro q oc hq
        exact matchStep_countsFrame _ _ _ _ q oc hq
      have hreg : countsFrame s.countedIds s.crossedIds
          ((List.range detections.length).foldl
            (registerUnmatchedStep detections (matchResults s detections).2.1)
            ((matchResults s detections).1, [])).1 := by
        refine foldl_preserves _
          (fun (q : TrackerState × List Nat) =>
            countsFrame s.countedIds s.crossedIds q.1) ?_ _ _ hmr
        intro q i hq
        unfold registerUnmatchedStep
        split
        · exact hq
        · exact registerStep_countsFrame _ _ q _ hq
      refine foldl_preserves _
        (countsFrame s.countedIds s.crossedIds) ?_ _ _ hreg
      intro st2 objId h2
      unfold agingStep
      split
      · exact h2
      · exact disappearedStep_countsFrame _ _ st2 objId h2

theorem check_zone_counting_of_counted (s : TrackerState) (oid : Nat)
    (h : oid ∈ s.countedIds) : check_zone_counting s oid = (false, s) := by
  unfold check_zone_counting
  rw [if_pos h]

theorem check_line_crossing_of_crossed (s : TrackerState) (oid : Nat)
    (lineY : ℚ) (h : oid ∈ s.crossedIds) :
    check_line_crossing s oid lineY = (false, s) := by
  unfold check_line_crossing
  rw [if_pos h]

theorem check_zone_counted_mono (s : TrackerState) (oid k : Nat)
    (h : k ∈ s.countedIds) : k ∈ (check_zone_counting s oid).2.countedIds := by
  unfold check_zone_counting
  dsimp only
  repeat first
    | exact h
    | exact List.mem_cons_of_mem _ h
    | split

theorem check_zone_crossed_eq (s : TrackerState) (oid : Nat) :
    (check_zone_counting s oid).2.crossedIds = s.crossedIds := by
  unfold check_zone_counting
  dsimp only
  repeat first | rfl | split

theorem check_line_crossed_mono (s : TrackerState) (oid k : Nat) (lineY : ℚ)
    (h : k ∈ s.crossedIds) :
    k ∈ (check_line_crossing s oid lineY).2.crossedIds := by
  unfold check_line_crossing
  dsimp only
  repeat first
    | exact h
    | exact List.mem_cons_of_mem _ h
    | split

theorem check_line_counted_eq (s : TrackerState) (oid : Nat) (lineY : ℚ) :
    (check_line_crossing s oid lineY).2.countedIds = s.countedIds := by
  unfold check_line_crossing
  dsimp only
  repeat first | rfl | split

theorem applyOp_counted_mono (s : TrackerState) (op : Op) (k : Nat)
    (h : k ∈ s.countedIds) : k ∈ (applyOp s op).countedIds := by
  cases op with
  | upd detections => exact (update_countsFrame s detections).1 ▸ h
  | zone oid => exact check_zone_counted_mono s oid k h
  | line oid lineY => exact (check_line_counted_eq s oid lineY) ▸ h

theorem applyOp_crossed_mono (s : TrackerState) (op : Op) (k : Nat)
    (h : k ∈ s.crossedIds) : k ∈ (applyOp s op).crossedIds := by
  cases op with
  | upd detections => exact (update_countsFrame s detections).2 ▸ h
  | zone oid => exact (check_zone_crossed_eq s oid) ▸ h
  | line oid lineY => exact check_line_crossed_mono s oid k lineY h

theorem runOps_counted_mono (s : TrackerState) (ops : List Op) (k : Nat)
    (h : k ∈ s.countedIds) : k ∈ (runOps s ops).countedIds :=
  foldl_preserves applyOp (fun st => k ∈ st.countedIds)
    (fun st op hst => applyOp_counted_mono st op k hst) _ s h

theorem runOps_crossed_mono (s : TrackerState) (ops : List Op) (k : Nat)
    (h : k ∈ s.crossedIds) : k ∈ (runOps s ops).crossedIds :=
  foldl_preserves applyOp (fun st => k ∈ st.crossedIds)
    (fun st op hst => applyOp_crossed_mono st op k hst) _ s h

theorem zoneCountStep_fixed (s : TrackerState) (vc : Nat) (oid : Nat)
    (h : oid ∈ s.countedIds) : zoneCountStep (s, vc) oid = (s, vc) := by
  unfold zoneCountStep
  rw [if_pos h]

theorem lineCountStep_fixed (directionFilterEnabled : Bool) (lineY : ℚ)
    (s : TrackerState) (vc fc : Nat) (oid : Nat) (h : oid ∈ s.crossedIds) :
    lineCountStep directionFilterEnabled lineY (s, vc, fc) oid = (s, vc, fc) := by
  unfold lineCountStep
  rw [if_pos h]

/-! ### Helper lemmas: IoU and non-maximum suppression -/

theorem bbox_iou_comm (b1 b2 : Box) : bbox_iou b1 b2 = bbox_iou b2 b1 := by
  unfold bbox_iou
  rw [max_comm b1.x1 b2.x1, max_comm b1.y1 b2.y1, min_comm b1.x2 b2.x2,
    min_comm b1.y2 b2.y2]
  ring_nf

theorem nmsLoop_nil (t : ℚ) : nmsLoop t [] = [] := by
  rw [nmsLoop]

theorem nmsLoop_cons (t : ℚ) (i : Nat) (b : Box) (rest : List (Nat × Box)) :
    nmsLoop t ((i, b) :: rest) =
      i :: nmsLoop t (rest.filter (fun p => bbox_iou b p.2 ≤ t)) := by
  rw [nmsLoop]

theorem nmsLoop_of_pairwise (t : ℚ) :
    ∀ l : List (Nat × Box),
      l.Pairwise (fun p q => bbox_iou p.2 q.2 ≤ t) →
      nmsLoop t l = l.map Prod.fst := by
  intro l
  induction l with
  | nil => intro _; simp [nmsLoop_nil]
  | cons p rest ih =>
      intro h
      obtain ⟨hp, hrest⟩ := List.pairwise_cons.mp h
      obtain ⟨i, b⟩ := p
      rw [nmsLoop_cons]
      rw [List.filter_eq_self.mpr (fun q hq => decide_eq_true (hp q hq))]
      rw [ih hrest]
      rfl

theorem insertByScoreDesc_perm (scores : List ℚ) (i : Nat) (l : List Nat) :
    (insertByScoreDesc scores i l).Perm (i :: l) := by
  induction l with
  | nil => exact List.Perm.refl _
  | cons j rest ih =>
      unfold insertByScoreDesc
      split
      · exact List.Perm.refl _
      · exact (List.Perm.cons j ih).trans (List.Perm.swap i j rest)

theorem argsortDesc_perm (scores : List ℚ) :
    (argsortDesc scores).Perm (List.range scores.length) := by
  unfold argsortDesc
  generalize List.range scores.length = l
  induction l with
  | nil => exact List.Perm.refl _
  | cons x rest ih =>
      simp only [List.foldr_cons]
      exact (insertByScoreDesc_perm scores x _).trans (List.Perm.cons x ih)

theorem argsortDesc_nodup (scores : List ℚ) : (argsortDesc scores).Nodup :=
  ((argsortDesc_perm scores).symm).nodup (List.nodup_range _)

theorem mem_argsortDesc (scores : List ℚ) (i : Nat) :
    i ∈ argsortDesc scores ↔ i < scores.length := by
  rw [(argsortDesc_perm scores).mem_iff, List.mem_range]

theorem argsortDesc_pair (s0 s1 : ℚ) :
    argsortDesc [s0, s1] = if s1 < s0 then [0, 1] else [1, 0] := by
  show (List.range 2).foldr (insertByScoreDesc [s0, s1]) [] = _
  rw [show List.range 2 = [0, 1] by rfl]
  simp only [List.foldr_cons, List.foldr_nil]
  rw [show insertByScoreDesc [s0, s1] 1 [] = [1] from rfl]
  unfold insertByScoreDesc
  simp only [List.getD_cons_succ, List.getD_cons_zero]
  split
  · rfl
  · rfl

/-- NMS on exactly two overlapping boxes (IoU above the threshold) with
distinct scores keeps exactly the higher-scoring box's index. -/
theorem nms_two_boxes (b0 b1 : Box) (s0 s1 t : ℚ)
    (hiou : t < bbox_iou b0 b1) (hne : s0 ≠ s1) :
    non_max_suppression [b0, b1] [s0, s1] t = [if s0 < s1 then 1 else 0] := by
  have hiou2 : t < bbox_iou b1 b0 := bbox_iou_comm b0 b1 ▸ hiou
  unfold non_max_suppression
  rw [argsortDesc_pair]
  by_cases hlt : s1 < s0
  · rw [if_pos hlt]
    simp only [List.map_cons, List.map_nil, List.getD_cons_zero,
      List.getD_cons_succ]
    rw [nmsLoop_cons]
    rw [show ([(1, b1)].filter (fun p => bbox_iou b0 p.2 ≤ t)) = [] by
      simp [List.filter_cons, not_le.mpr hiou]]
    rw [nmsLoop_nil, if_neg (asymm hlt)]
  · rw [if_neg hlt]
    have hlt2 : s0 < s1 := lt_of_le_of_ne (not_lt.mp hlt) hne
    simp only [List.map_cons, List.map_nil, List.getD_cons_zero,
      List.getD_cons_succ]
    rw [nmsLoop_cons]
    rw [show ([(0, b0)].filter (fun p => bbox_iou b1 p.2 ≤ t)) = [] by
      simp [List.filter_cons, not_le.mpr hiou2]]
    rw [nmsLoop_nil, if_pos hlt2]

/-- NMS on pairwise non-suppressing boxes keeps every index. -/
theorem nms_keeps_nonoverlapping (boxes : List Box) (scores : List ℚ) (t : ℚ)
    (hlen : scores.length = boxes.length)
    (h : ∀ i j, i < boxes.length → j < boxes.length → i ≠ j →
      bbox_iou (boxes.getD i default) (boxes.getD j default) ≤ t) :
    ∀ i < boxes.length, i ∈ non_max_suppression boxes scores t := by
  intro i hi
  unfold non_max_suppression
  have hpw : ((argsortDesc scores).map
      (fun i => (i, boxes.getD i default))).Pairwise
        (fun p q => bbox_iou p.2 q.2 ≤ t) := by
    rw [List.pairwise_map]
    refine List.Pairwise.imp_of_mem ?_ (argsortDesc_nodup scores)
    intro a b ha hb hab
    have ha2 : a < boxes.length := hlen ▸ (mem_argsortDesc scores a).mp ha
    have hb2 : b < boxes.length := hlen ▸ (mem_argsortDesc scores b).mp hb
    exact h a b ha2 hb2 hab
  rw [nmsLoop_of_pairwise t _ hpw, List.map_map]
  rw [show (Prod.fst ∘ fun i => (i, boxes.getD i default)) = id from rfl,
    List.map_id]
  exact (mem_argsortDesc scores i).mpr (hlen ▸ hi)

/-! ### Helper lemmas: bbox smoothing on match, stability window -/

theorem smooth_bbox_getD (f : ℚ) (oldBbox newBbox : List ℚ) (i : Nat)
    (hi : i < oldBbox.length) (hi2 : i < newBbox.length) :
    (smooth_bbox f oldBbox newBbox).getD i 0 =
      ((pyInt (oldBbox.getD i 0 * (1 - f) + newBbox.getD i 0 * f) : ℤ) : ℚ) := by
  induction oldBbox generalizing newBbox i with
  | nil => simp at hi
  | cons a rest ih =>
      cases newBbox with
      | nil => simp at hi2
      | cons b brest =>
          cases i with
          | zero => rfl
          | succ n =>
              rw [show smooth_bbox f (a :: rest) (b :: brest) =
                ((pyInt (a * (1 - f) + b * f) : ℤ) : ℚ) ::
                  smooth_bbox f rest brest from rfl]
              simp only [List.getD_cons_succ]
              exact ih brest n (Nat.lt_of_succ_lt_succ hi)
                (Nat.lt_of_succ_lt_succ hi2)

theorem matchStep_matched (detections : List Detection)
    (detectionCenters : List Point) (st : TrackerState)
    (matchedDetections matchedObjects : List Nat) (objId : Nat) (center : Point)
    (j : Nat) (hm : objId ∉ matchedObjects)
    (hb : findBestMatch center detectionCenters matchedDetections
      st.maxDistance = some j) :
    dictGet (matchStep detections detectionCenters
        (st, matchedDetections, matchedObjects) (objId, center)).1.objects objId =
      some { (dictGet st.objects objId).getD default with
        bbox := smooth_bbox st.smoothingFactor
          ((dictGet st.objects objId).getD default).bbox
          (detections.getD j ⟨[], 0, "vehicle"⟩).bbox
        cls := (detections.getD j ⟨[], 0, "vehicle"⟩).className
        confidence := (detections.getD j ⟨[], 0, "vehicle"⟩).confidence } := by
  unfold matchStep
  dsimp only
  rw [if_neg hm, hb]
  exact dictGet_dictSet_self _ _ _

theorem lastN_length {α : Type} (n : Nat) (l : List α) (h : n ≤ l.length) :
    (lastN n l).length = n := by
  unfold lastN
  rw [List.length_drop]
  omega

theorem iterate_fixed_point {α : Type} (f : α → α) (a : α) (h : f a = a) :
    ∀ k, f^[k] a = a := by
  intro k
  induction k with
  | zero => rfl
  | succ k ih => rw [Function.iterate_succ_apply', ih, h]

/-! ### Claim theorems -/

/-- C1: Counting is idempotent per track.  For a track id already in the
counted set (zone strategy) or the crossed set (line strategy),
`check_zone_counting` resp. `check_line_crossing` returns `False` and leaves
the tracker unchanged; the id remains in its set across any further public
operations (updates and checks), and any number of passes of
`process_frame`'s counting loop over that id leave the total vehicle count
unchanged. -/
theorem counting_idempotent_per_track (s : TrackerState) (objectId : Nat)
    (lineY : ℚ) (vc fc k : Nat) (directionFilterEnabled : Bool) (ops : List Op) :
    (objectId ∈ s.countedIds →
      check_zone_counting s objectId = (false, s) ∧
      objectId ∈ (runOps s ops).countedIds ∧
      (fun acc => zoneCountStep acc objectId)^[k] (runOps s ops, vc) =
        (runOps s ops, vc)) ∧
    (objectId ∈ s.crossedIds →
      check_line_crossing s objectId lineY = (false, s) ∧
      objectId ∈ (runOps s ops).crossedIds ∧
      (fun acc => lineCountStep directionFilterEnabled lineY acc objectId)^[k]
        (runOps s ops, vc, fc) = (runOps s ops, vc, fc)) := by
  constructor
  · intro h
    have hmem := runOps_counted_mono s ops objectId h
    exact ⟨check_zone_counting_of_counted s objectId h, hmem,
      iterate_fixed_point (fun acc => zoneCountStep acc objectId)
        (runOps s ops, vc) (zoneCountStep_fixed _ vc _ hmem) k⟩
  · intro h
    have hmem := runOps_crossed_mono s ops objectId h
    exact ⟨check_line_crossing_of_crossed s objectId lineY h, hmem,
      iterate_fixed_point
        (fun acc => lineCountStep directionFilterEnabled lineY acc objectId)
        (runOps s ops, vc, fc)
        (lineCountStep_fixed directionFilterEnabled lineY _ vc fc _ hmem) k⟩

/-- Witness for C1 at a concrete already-counted state. -/
theorem counting_idempotent_per_track_witness :
    check_zone_counting sCounted 0 = (false, sCounted) ∧
    check_line_crossing sCounted 0 150 = (false, sCounted) :=
  ⟨((counting_idempotent_per_track sCounted 0 150 5 0 2 true []).1
      (by decide)).1,
    ((counting_idempotent_per_track sCounted 0 150 5 0 2 true []).2
      (by decide)).1⟩

/-- C2: With `max_disappeared = 30`, a track whose disappearance counter is
0 survives 30 consecutive no-detection updates and is removed during the
31st. -/
theorem track_survives_30_deregistered_31 (s : TrackerState) (objectId : Nat)
    (hmd : s.maxDisappeared = 30)
    (hnd : (s.disappeared.map Prod.fst).Nodup)
    (h0 : dictGet s.disappeared objectId = some 0)
    (hobj : objectId ∈ objectKeys s) :
    objectId ∈ objectKeys ((fun st => update st [])^[30] s) ∧
    objectId ∉ objectKeys ((fun st => update st [])^[31] s) := by
  have key : ∀ k : Nat, k ≤ 30 →
      dictGet ((fun st => update st [])^[k] s).disappeared objectId = some k ∧
      objectId ∈ objectKeys ((fun st => update st [])^[k] s) ∧
      (((fun st => update st [])^[k] s).disappeared.map Prod.fst).Nodup ∧
      ((fun st => update st [])^[k] s).maxDisappeared = 30 := by
    intro k
    induction k with
    | zero => intro _; exact ⟨h0, hobj, hnd, hmd⟩
    | succ k ih =>
        intro hk
        obtain ⟨ih1, ih2, ih3, ih4⟩ := ih (by omega)
        simp only [Function.iterate_succ_apply', update_nil_eq]
        have hkeep := updateNoDetections_keep _ objectId k ih3 ih1 ih2 (by omega)
        exact ⟨hkeep.1, hkeep.2, updateNoDetections_nodup _ ih3,
          (updateNoDetections_maxDisappeared _).trans ih4⟩
  obtain ⟨k1, k2, k3, k4⟩ := key 30 (le_refl _)
  refine ⟨k2, ?_⟩
  have h31 : (fun st => update st [])^[31] s =
      update ((fun st => update st [])^[30] s) [] := by
    rw [show (31:Nat) = 30 + 1 from rfl, Function.iterate_succ_apply']
  rw [h31, update_nil_eq]
  exact updateNoDetections_drop _ objectId 30 k3 k1 (by omega)

/-- Witness for C2 at a concrete one-track state. -/
theorem track_survives_30_deregistered_31_witness :
    0 ∈ objectKeys ((fun st => update st [])^[30] sDisp) ∧
    0 ∉ objectKeys ((fun st => update st [])^[31] sDisp) :=
  track_survives_30_deregistered_31 sDisp 0 (by decide) (by decide)
    (by decide) (by decide)

/-- C5: Zone counting is direction-sensitive and boundary-inclusive: with a
recorded zone-entry y of 300 and `min_movement_to_count = 50`, a current
(last-trajectory-point) y of 349 does not count and a current y of 350
does. -/
theorem zone_counting_boundary (s : TrackerState) (objectId : Nat)
    (pts : List Point)
    (hnc : objectId ∉ s.countedIds)
    (htraj : dictGet s.trajectoryPoints objectId = some pts)
    (hlen : 5 ≤ pts.length)
    (hentry : dictGet s.zoneEntryPositions objectId = some 300)
    (hmin : s.minMovementToCount = 50) :
    ((pts.getLastD (0, 0)).2 = 349 →
      (check_zone_counting s objectId).1 = false) ∧
    ((pts.getLastD (0, 0)).2 = 350 →
      (check_zone_counting s objectId).1 = true) := by
  unfold check_zone_counting
  rw [if_neg hnc, htraj]
  dsimp only
  rw [if_neg (by omega : ¬ pts.length < 5), hentry]
  simp only [Option.isNone_some, Bool.false_eq_true, if_false,
    Option.getD_some, hmin]
  constructor
  · intro h349
    rw [h349]
    simp only [hentry, Option.getD_some]
    rw [if_neg (by norm_num : ¬ (50:ℚ) ≤ 349 - 300)]
  · intro h350
    rw [h350]
    simp only [hentry, Option.getD_some]
    rw [if_pos (by norm_num : (50:ℚ) ≤ 350 - 300)]

/-- Witness for C5 at two concrete tracker states. -/
theorem zone_counting_boundary_witness :
    (check_zone_counting sZone349 0).1 = false ∧
    (check_zone_counting sZone350 0).1 = true :=
  ⟨(zone_counting_boundary sZone349 0 _ (by decide) rfl (by decide) rfl
      rfl).1 (by decide),
    (zone_counting_boundary sZone350 0 _ (by decide) rfl (by decide) rfl
      rfl).2 (by decide)⟩

/-- C10: A track whose trajectory has fewer than 5 centroid points is never
zone-counted: `check_zone_counting` returns `False` and leaves the whole
tracker state (in particular the counted set and the zone-entry-position
map) unchanged, regardless of how far the track has already moved. -/
theorem zone_counting_needs_five_points (s : TrackerState) (objectId : Nat)
    (h : ∀ pts, dictGet s.trajectoryPoints objectId = some pts →
      pts.length < 5) :
    check_zone_counting s objectId = (false, s) := by
  unfold check_zone_counting
  by_cases hc : objectId ∈ s.countedIds
  · rw [if_pos hc]
  · rw [if_neg hc]
    cases htraj : dictGet s.trajectoryPoints objectId with
    | none => rfl
    | some pts =>
        dsimp only
        rw [if_pos (h pts htraj)]

/-- Witness for C10 at a concrete state whose track 0 has 2 trajectory
points and 100 pixels of forward movement. -/
theorem zone_counting_needs_five_points_witness :
    check_zone_counting sShortTraj 0 = (false, sShortTraj) := by
  apply zone_counting_needs_five_points
  intro pts hp
  rw [show dictGet sShortTraj.trajectoryPoints 0 =
    some [(0, 300), (0, 400)] from rfl] at hp
  cases hp
  decide

/-- C4: Non-maximum suppression.  (a) For exactly two boxes whose IoU
exceeds the threshold and whose scores differ, the returned index list is
exactly the singleton of the higher-scoring box.  (b) For any input of
boxes that are pairwise non-overlapping (IoU = 0 for every pair of distinct
indices) and a nonnegative threshold, every index is returned. -/
theorem nms_suppresses_and_keeps :
    (∀ (b0 b1 : Box) (s0 s1 t : ℚ), t < bbox_iou b0 b1 → s0 ≠ s1 →
      non_max_suppression [b0, b1] [s0, s1] t = [if s0 < s1 then 1 else 0]) ∧
    (∀ (boxes : List Box) (scores : List ℚ) (t : ℚ), 0 ≤ t →
      scores.length = boxes.length →
      (∀ i j, i < boxes.length → j < boxes.length → i ≠ j →
        bbox_iou (boxes.getD i default) (boxes.getD j default) = 0) →
      ∀ i < boxes.length, i ∈ non_max_suppression boxes scores t) := by
  constructor
  · exact fun b0 b1 s0 s1 t h1 h2 => nms_two_boxes b0 b1 s0 s1 t h1 h2
  · intro boxes scores t ht hlen h i hi
    refine nms_keeps_nonoverlapping boxes scores t hlen ?_ i hi
    intro a b ha hb hab
    exact le_trans (le_of_eq (h a b ha hb hab)) ht

/-- Witness for C4: two coincident boxes keep only index 0 (score 0.9 over
0.8); three disjoint boxes all survive. -/
theorem nms_suppresses_and_keeps_witness :
    non_max_suppression [⟨0, 0, 10, 10⟩, ⟨0, 0, 10, 10⟩] [9/10, 8/10]
      (1/2) = [0] ∧
    2 ∈ non_max_suppression [⟨0, 0, 1, 1⟩, ⟨5, 5, 6, 6⟩, ⟨10, 10, 11, 11⟩]
      [1/10, 3/10, 2/10] (45/100) := by
  constructor
  · have h := nms_suppresses_and_keeps.1 ⟨0, 0, 10, 10⟩ ⟨0, 0, 10, 10⟩
      (9/10) (8/10) (1/2) (by with_unfolding_all decide) (by norm_num)
    rw [if_neg (by norm_num)] at h
    exact h
  · refine nms_suppresses_and_keeps.2
      [⟨0, 0, 1, 1⟩, ⟨5, 5, 6, 6⟩, ⟨10, 10, 11, 11⟩] [1/10, 3/10, 2/10]
      (45/100) (by norm_num) rfl ?_ 2 (by decide)
    intro i j hi hj hij
    simp only [List.length_cons, List.length_nil] at hi hj
    interval_cases i <;> interval_cases j <;>
      first
        | exact absurd rfl hij
        | with_unfolding_all decide

/-- C7: For every tracker state reachable through the public operations,
the id sequence iterated by `update`'s greedy matching loop
(`list(self.objects.keys())`) is strictly increasing, and consequently the
matching phase coincides with the reference greedy algorithm that processes
tracks in ascending numeric id order. -/
theorem tracks_iterated_in_ascending_id_order (s : TrackerState)
    (h : Reachable s) :
    (objectKeys s).Pairwise (· < ·) ∧
    ∀ detections, matchResults s detections = referenceMatchResults s detections := by
  have hg := reachable_goodKeys s h
  exact ⟨hg.1, fun detections => matchResults_eq_reference s detections hg.1⟩

/-- Witness for C7 at the reachable one-track state `sOne`. -/
theorem tracks_iterated_in_ascending_id_order_witness :
    (objectKeys sOne).Pairwise (· < ·) ∧
    matchResults sOne [detB] = referenceMatchResults sOne [detB] := by
  have h := tracks_iterated_in_ascending_id_order sOne
    (Reachable.step (initState 30 100) (Op.upd [detA]) (Reachable.init 30 100))
  exact ⟨h.1, h.2 [detB]⟩

/-- C9: Track ids are unique and monotonically assigned for the lifetime of
a tracker instance: along any run of public operations from a fresh
tracker, the sequence of ids assigned at registration is strictly
increasing, and any id live (hence also any id later deregistered) after a
prefix of the run is strictly below every id assigned afterwards — so no id
is ever reused. -/
theorem track_ids_unique_and_monotone (maxDisappeared : Nat)
    (maxDistance : ℚ) (pre post : List Op) :
    (assignedAlong (initState maxDisappeared maxDistance)
      (pre ++ post)).Pairwise (· < ·) ∧
    ∀ objectId ∈ objectKeys (runOps (initState maxDisappeared maxDistance) pre),
      ∀ j ∈ assignedAlong (runOps (initState maxDisappeared maxDistance) pre)
        post, objectId < j := by
  constructor
  · exact (assignedAlong_spec (pre ++ post) _).1
  · intro objectId hoid j hj
    have hreach : Reachable (runOps (initState maxDisappeared maxDistance) pre) :=
      reachable_runOps pre _ (Reachable.init maxDisappeared maxDistance)
    have hg := reachable_goodKeys _ hreach
    have h1 := hg.2 objectId hoid
    have h2 := ((assignedAlong_spec post _).2.1 j hj).1
    omega

/-- Witness for C9: after one frame registering track 0, a second frame
matching track 0 and registering a far-away detection assigns id 1 > 0. -/
theorem track_ids_unique_and_monotone_witness :
    0 ∈ objectKeys (runOps (initState 30 100) [Op.upd [detA]]) ∧
    1 ∈ assignedAlong (runOps (initState 30 100) [Op.upd [detA]])
      [Op.upd [detA, detFar]] ∧
    (0 : Nat) < 1 :=
  ⟨by with_unfolding_all decide, by with_unfolding_all decide,
    (track_ids_unique_and_monotone 30 100 [Op.upd [detA]]
      [Op.upd [detA, detFar]]).2 0 (by with_unfolding_all decide) 1
      (by with_unfolding_all decide)⟩

/-- C3 (counterexample): on a malformed `(1, 4)` raw tensor (empty
class-score axis), the decode step fails internally, but `postprocess`
catches the failure and returns a normal empty detection list to the
caller — no decode error of any kind surfaces. -/
theorem decoder_malformed_counterexample :
    postprocess_decode malformedRows (1/4) (45/100) 1 (0, 0) (640, 640) =
      Except.error "zero-size array reduction in np.max over class scores" ∧
    postprocess malformedRows (1/4) (45/100) 1 (0, 0) (640, 640) = [] := by
  constructor <;> with_unfolding_all rfl

/-- C3 (amended): on any prediction matrix of malformed shape (a row with
no class scores), the decode step fails, `postprocess` catches the failure
locally, and the caller receives a normal empty detection list rather than
an exception. -/
theorem decoder_malformed_caught_returns_empty (rows : List (List ℚ))
    (confThres iouThres ratio : ℚ) (pad imgShape : ℚ × ℚ)
    (h : ∃ r ∈ rows, r.length < 5) :
    (∃ msg, postprocess_decode rows confThres iouThres ratio pad imgShape =
      Except.error msg) ∧
    postprocess rows confThres iouThres ratio pad imgShape = [] := by
  have hany : (rows.any fun r => decide (r.length < 5)) = true := by
    obtain ⟨r, hr, hlen⟩ := h
    exact List.any_eq_true.mpr ⟨r, hr, decide_eq_true hlen⟩
  constructor
  · refine ⟨"zero-size array reduction in np.max over class scores", ?_⟩
    unfold postprocess_decode
    rw [if_pos hany]
  · unfold postprocess postprocess_decode
    rw [if_pos hany]

/-- Witness for the amended C3 at a concrete malformed tensor. -/
theorem decoder_malformed_caught_returns_empty_witness :
    postprocess malformedRows (1/4) (45/100) 1 (0, 0) (640, 640) = [] :=
  (decoder_malformed_caught_returns_empty malformedRows (1/4) (45/100) 1
    (0, 0) (640, 640)
    ⟨[1, 2, 3, 4], by with_unfolding_all decide, by decide⟩).2

/-- C6 (counterexample): a detection history whose 5 most recent samples
contain 3 `True` — but whose `min_tracklet_frames = 3` most recent contain
only 1 — is NOT declared stable, contradicting the 5-sample-window
reading. -/
theorem stability_three_of_five_counterexample :
    boolSum (lastN 5 stThreeOfFive.ambulanceDetectionHistory) = 3 ∧
    stThreeOfFive.stabilityRatio = 6/10 ∧
    is_enhanced_stable_detection stThreeOfFive [detA] = false := by
  refine ⟨by decide, rfl, ?_⟩
  with_unfolding_all decide

/-- C6 (amended): the frequency criterion of the stability gate uses the
last `min_tracklet_frames = 3` samples, not 5.  With
`stability_ratio = 0.6`: if at least 2 of the 3 most recent samples are
detected and the confidence-consistency, position-stability and
current-detection criteria all pass, the update yields stable = true; if at
most 1 of the 3 most recent samples is detected, it yields stable = false
regardless of the other criteria. -/
theorem stability_window_is_three (st : StabilityState)
    (currentDetections : List Detection)
    (hratio : st.stabilityRatio = 6/10) (hmtf : st.minTrackletFrames = 3)
    (hlen : 3 ≤ st.ambulanceDetectionHistory.length) :
    (2 ≤ boolSum (lastN 3 st.ambulanceDetectionHistory) →
      confidenceConsistencyOk st = true →
      positionStabilityOk st = true →
      currentDetectionQualityOk currentDetections = true →
      is_enhanced_stable_detection st currentDetections = true) ∧
    (boolSum (lastN 3 st.ambulanceDetectionHistory) ≤ 1 →
      is_enhanced_stable_detection st currentDetections = false) := by
  have hrec : (lastN 3 st.ambulanceDetectionHistory).length = 3 :=
    lastN_length 3 _ hlen
  unfold is_enhanced_stable_detection
  rw [hmtf, hratio, if_neg (by omega)]
  dsimp only
  rw [hrec]
  simp only [Nat.cast_ofNat]
  constructor
  · intro hsum hc2 hc3 hc4
    have hcast : (2:ℚ) ≤ (boolSum (lastN 3 st.ambulanceDetectionHistory) : ℚ) := by
      exact_mod_cast hsum
    rw [if_neg (not_lt.mpr (by
      rw [le_div_iff₀ (by norm_num : (0:ℚ) < 3)]
      linarith))]
    simp [hc2, hc3, hc4]
  · intro hsum
    have hcast : (boolSum (lastN 3 st.ambulanceDetectionHistory) : ℚ) ≤ 1 := by
      exact_mod_cast hsum
    rw [if_pos (by
      rw [div_lt_iff₀ (by norm_num : (0:ℚ) < 3)]
      linarith)]

/-- Witness for the amended C6: 2-of-last-3 detected (other criteria
passing) is stable; 1-of-last-3 is not. -/
theorem stability_window_is_three_witness :
    is_enhanced_stable_detection stTwoOfThree [detA] = true ∧
    is_enhanced_stable_detection stOneOfThree [detA] = false :=
  ⟨(stability_window_is_three stTwoOfThree [detA] rfl rfl (by decide)).1
      (by decide) (by with_unfolding_all decide)
      (by with_unfolding_all decide) (by with_unfolding_all decide),
    (stability_window_is_three stOneOfThree [detA] rfl rfl (by decide)).2
      (by decide)⟩

/-- C8 (counterexample): after a first frame stores box `[0, 0, 2, 2]` for
track 0 and a second frame matches it to candidate `[1, 1, 3, 3]`, the
stored x1 coordinate is 0, while the exact convex combination
`old * (1 − α) + candidate * α` with `α = 0.65` is `13/20 ≠ 0` — the code
truncates each smoothed coordinate with Python `int()`. -/
theorem smoothing_exact_counterexample :
    ((dictGet sOne.objects 0).getD default).bbox.getD 0 0 = 0 ∧
    ((dictGet sTwoFrames.objects 0).getD default).bbox.getD 0 0 = 0 ∧
    (0:ℚ) * (1 - 65/100) + 1 * (65/100) = 13/20 ∧
    ((13:ℚ)/20) ≠ 0 := by
  refine ⟨?_, ?_, by norm_num, by norm_num⟩ <;> with_unfolding_all decide

/-- C8 (amended): on every successful match in `update`'s loop body, the
track's stored bounding box becomes `smooth_bbox old candidate`, whose
`i`-th coordinate is the Python-`int` truncation of
`old_i * (1 − α) + candidate_i * α` (α the smoothing factor) — the exact
convex combination rounded toward zero. -/
theorem smoothing_truncates_on_match (detections : List Detection)
    (detectionCenters : List Point) (st : TrackerState)
    (matchedDetections matchedObjects : List Nat) (objId : Nat)
    (center : Point) (j i : Nat) (hm : objId ∉ matchedObjects)
    (hb : findBestMatch center detectionCenters matchedDetections
      st.maxDistance = some j)
    (hi : i < ((dictGet st.objects objId).getD default).bbox.length)
    (hi2 : i < (detections.getD j ⟨[], 0, "vehicle"⟩).bbox.length) :
    ((dictGet (matchStep detections detectionCenters
        (st, matchedDetections, matchedObjects) (objId, center)).1.objects
          objId).getD default).bbox =
      smooth_bbox st.smoothingFactor
        ((dictGet st.objects objId).getD default).bbox
        (detections.getD j ⟨[], 0, "vehicle"⟩).bbox ∧
    ((dictGet (matchStep detections detectionCenters
        (st, matchedDetections, matchedObjects) (objId, center)).1.objects
          objId).getD default).bbox.getD i 0 =
      ((pyInt (((dictGet st.objects objId).getD default).bbox.getD i 0 *
          (1 - st.smoothingFactor) +
        (detections.getD j ⟨[], 0, "vehicle"⟩).bbox.getD i 0 *
          st.smoothingFactor) : ℤ) : ℚ) := by
  have hms := matchStep_matched detections detectionCenters st
    matchedDetections matchedObjects objId center j hm hb
  rw [hms]
  exact ⟨rfl, smooth_bbox_getD _ _ _ i hi hi2⟩

/-- Witness for the amended C8 at a concrete one-track state: the stored x1
after the match equals the truncated smoothed coordinate. -/
theorem smoothing_truncates_on_match_witness :
    ((dictGet (matchStep [detB] [(2, 2)] (stMatch, [], []) (0, (1, 1))).1.objects
        0).getD default).bbox.getD 0 0 =
      ((pyInt (((dictGet stMatch.objects 0).getD default).bbox.getD 0 0 *
          (1 - stMatch.smoothingFactor) +
        ([detB].getD 0 ⟨[], 0, "vehicle"⟩).bbox.getD 0 0 *
          stMatch.smoothingFactor) : ℤ) : ℚ) :=
  (smoothing_truncates_on_match [detB] [(2, 2)] stMatch [] [] 0 (1, 1) 0 0
    (by decide) (by with_unfolding_all decide)
    (by with_unfolding_all decide) (by with_unfolding_all decide)).2

end TrafficControl
